import Mathlib

/-!
Verification of the CARTS standalone SparseLU benchmarks
(`kastors/sparselu/sparselu-task-dep/sparselu-task-dep.c` and
`kastors/sparselu/sparselu-task/sparselu-task.c`).

The C code factorizes an `n × n` grid of nullable `b × b` float tiles in
place.  We embed it shallowly:

* a `Tile` is a total function `Nat → Nat → ℚ` (exact arithmetic stands in
  for `float`; all claims settled here are about presence patterns, task
  traces and operation order, which are arithmetic-independent, or about
  exact equality of the two implementations, which holds kernel-for-kernel);
* a `Grid` is `Nat → Nat → Option Tile`, `none` being a structural zero
  (`NULL` slot in C);
* OpenMP tasks are executed at their submission point (the sequential
  elaboration of the task graph; the `depend` clauses of the task-dep
  version order any two conflicting tasks by submission order, so this is
  the unique hazard-respecting sequentialization).  Task-construct data
  environments are modelled faithfully: variables of the enclosing function
  referenced inside `#pragma omp task` without an explicit clause are
  firstprivate, i.e. the task body works on a copy captured at submission;
* a C dereference of a possibly-`NULL` tile slot that the code does not
  guard is modelled by an `Option` match whose `none` branch aborts the
  whole run (`Option St` results);
* `malloc` failure, for the allocation claims, is modelled by an oracle
  `Nat → Bool` saying whether the i-th allocation succeeds.

Instrumentation (task traces with read/write footprints and the pragma's
depend sets, fill-in allocation event lists) is carried alongside the grid
so that the task-count, ordering and fill-in claims can be stated; it never
influences the computed grid.
-/

namespace SparseLU

/-- `for (x = lo; x < hi; x++) acc = f(acc, x)` -- left fold over the
half-open interval `[lo, hi)`, the loop shape used everywhere in the C
sources. -/
def foldRange {α : Type} (lo hi : Nat) (f : α → Nat → α) (init : α) : α :=
  (List.range' lo (hi - lo)).foldl f init

/-- Concatenation of the lists produced for each element, in order. -/
def concatMap {α β : Type} (f : α → List β) : List α → List β
  | [] => []
  | x :: tl => f x ++ concatMap f tl

/-- A dense tile.  The C type is `float **` holding a `b × b` block; we use
a total function and simply never look at indices `≥ b`. -/
def Tile : Type := Nat → Nat → ℚ

/-- The tile grid `BENCH`: slot `(i, j)` is `none` when the C pointer
`BENCH[i][j]` is `NULL`. -/
def Grid : Type := Nat → Nat → Option Tile

/-- In-place store `t[i][j] = v` on a tile. -/
def updT (t : Tile) (i j : Nat) (v : ℚ) : Tile :=
  fun i' j' => if i' = i then (if j' = j then v else t i' j') else t i' j'

/-- In-place store `BENCH[i][j] = v` on the grid. -/
def updG (g : Grid) (i j : Nat) (v : Option Tile) : Grid :=
  fun i' j' => if i' = i then (if j' = j then v else g i' j') else g i' j'

/-- `BENCH[i][j] != NULL`. -/
def pres (g : Grid) (i j : Nat) : Bool :=
  (g i j).isSome

/-- The value `BENCH[i][j][r][c]`, when the slot is present. -/
def tileAt (g : Grid) (i j r c : Nat) : Option ℚ :=
  (g i j).map (fun t => t r c)

/-- `allocate_clean_block` (sparselu-task-dep.c:22-39), success path: a
zero-filled `b × b` tile.  (Its `malloc`-failure behaviour is modelled
separately by `allocate_clean_blockM` below.) -/
def allocate_clean_block : Tile :=
  fun _ _ => 0

/-- `lu0(diag, b)` (sparselu-task-dep.c:50-59): in-place unpivoted LU
factorization of one tile, translated loop for loop. -/
def lu0 (b : Nat) (diag : Tile) : Tile :=
  foldRange 0 b (fun diag k =>
    foldRange (k+1) b (fun diag i =>
      let diag := updT diag i k (diag i k / diag k k)
      foldRange (k+1) b (fun diag j =>
        updT diag i j (diag i j - diag i k * diag k j)) diag) diag) diag

/-- `bdiv(diag, row, b)` (sparselu-task-dep.c:61-69). -/
def bdiv (b : Nat) (diag row : Tile) : Tile :=
  foldRange 0 b (fun row i =>
    foldRange 0 b (fun row k =>
      let row := updT row i k (row i k / diag k k)
      foldRange (k+1) b (fun row j =>
        updT row i j (row i j - row i k * diag k j)) row) row) row

/-- `bmod(row, col, inner, b)` (sparselu-task-dep.c:71-77). -/
def bmod (b : Nat) (row col inner : Tile) : Tile :=
  foldRange 0 b (fun inner i =>
    foldRange 0 b (fun inner j =>
      foldRange 0 b (fun inner k =>
        updT inner i j (inner i j - row i k * col k j)) inner) inner) inner

/-- `fwd(diag, col, b)` (sparselu-task-dep.c:79-85). -/
def fwd (b : Nat) (diag col : Tile) : Tile :=
  foldRange 0 b (fun col j =>
    foldRange 0 b (fun col k =>
      foldRange (k+1) b (fun col i =>
        updT col i j (col i j - diag i k * col k j)) col) col) col

/-- The `null_entry` computation of `genmat` (sparselu-task-dep.c:101-116).
The C code initializes `null_entry = 0` and runs a sequence of guarded
assignments; the last assignment whose guard holds wins, which is exactly
the nested conditional below read top-down from the *last* C assignment:
`ii == jj - 1` and `ii - 1 == jj` on C ints with `ii, jj ≥ 0` are
`ii + 1 == jj` and `ii == jj + 1` over ℕ. -/
def nullEntry (ii jj : Nat) : Bool :=
  if ii = jj + 1 then false
  else if ii + 1 = jj then false
  else if ii = jj then false
  else if jj % 2 = 1 then true
  else if ii % 2 = 1 then true
  else if jj < ii ∧ jj % 3 ≠ 0 then true
  else if ii < jj ∧ ii % 3 ≠ 0 then true
  else false

/-- One step of the linear-congruential recurrence
`init_val = (3125 * init_val) % 65536` (sparselu-task-dep.c:123). -/
def rngStep (s : Nat) : Nat :=
  (3125 * s) % 65536

/-- The value a recurrence state is mapped to:
`(init_val - 32768.0) / 16384.0` (sparselu-task-dep.c:124). -/
def rngVal (s : Nat) : ℚ :=
  ((s : ℚ) - 32768) / 16384

/-- The tile-filling loop of `genmat` (sparselu-task-dep.c:121-126): fills
a `b × b` tile in row-major order, threading the recurrence state, and
returns the filled tile together with the final state. -/
def fillTile (b : Nat) (s : Nat) : Tile × Nat :=
  foldRange 0 b (fun p i =>
    foldRange 0 b (fun p j =>
      let s1 := rngStep p.2
      (updT p.1 i j (rngVal s1), s1)) p) (allocate_clean_block, s)

/-- `genmat` (sparselu-task-dep.c:91-134) as the C code behaves under
OpenMP semantics.  The per-slot body runs inside `#pragma omp task
shared(M)`; the locals `init_val`, `null_entry`, `i`, `j` carry no
data-sharing clause and are therefore implicitly firstprivate: each task
receives a copy of `init_val` taken at task creation, and its updates to
that copy never reach the creating thread.  Since `init_val` is only ever
written inside task bodies, the creator's value stays at the seed `1325`
for the whole double loop, so every present tile is filled from a fresh
copy of the seed.  Slots outside the `n × n` grid do not exist and are
`none`. -/
def genmat (n b : Nat) : Grid :=
  fun ii jj =>
    if ii < n ∧ jj < n then
      if nullEntry ii jj then none else some (fillTile b 1325).1
    else none

/-- The generator as the specification describes it (and as the same C
code behaves if the `#pragma omp task` line is elided): the recurrence
state is threaded through the present slots in row-major order of slots
and of entries within a slot, seeded once at `1325`. -/
def genmatSpec (n b : Nat) : Grid :=
  (foldRange 0 n (fun p ii =>
    foldRange 0 n (fun p jj =>
      if nullEntry ii jj then (updG p.1 ii jj none, p.2)
      else
        let t := fillTile b p.2
        (updG p.1 ii jj (some t.1), t.2)) p)
    ((fun _ _ => none), 1325)).1

/-- `BENCH[k][k] != NULL` for every `k < n`: the data-model invariant that
all diagonal tiles are present (the generator forces the three central
diagonals present). -/
def diagPresentB (g : Grid) (n : Nat) : Bool :=
  (List.range n).all (fun k => (g k k).isSome)

/-- The four task kinds submitted by `sparselu_par_call`. -/
inductive TaskKind : Type
  | lu0T
  | fwdT
  | bdivT
  | bmodT
deriving DecidableEq

/-- A submitted task: its kind, the coordinates `kk`, `ii`, `jj` it was
created with (`ii`/`jj` repeat `kk` where the C task has fewer indices),
plus two instrumentation bits: whether every slot the task writes was
present at the moment the task was created, and whether the task *body*
performs a tile-slot allocation. -/
structure Task : Type where
  kind : TaskKind
  kk : Nat
  ii : Nat
  jj : Nat
  targetPresent : Bool
  bodyAlloc : Bool
deriving DecidableEq

/-- Default task used with `List.getD`. -/
def task0 : Task :=
  ⟨TaskKind.lu0T, 0, 0, 0, true, false⟩

/-- The tile coordinates a task's kernel call writes (derived from which
tile arguments the kernels mutate: `lu0` mutates `diag`, `fwd` mutates
`col = BENCH[kk][jj]`, `bdiv` mutates `row = BENCH[ii][kk]`, `bmod`
mutates `inner = BENCH[ii][jj]`). -/
def footWrites (t : Task) : List (Nat × Nat) :=
  match t.kind with
  | TaskKind.lu0T => [(t.kk, t.kk)]
  | TaskKind.fwdT => [(t.kk, t.jj)]
  | TaskKind.bdivT => [(t.ii, t.kk)]
  | TaskKind.bmodT => [(t.ii, t.jj)]

/-- The tile coordinates a task's kernel call reads (every tile argument
of the kernel, mutated ones included since the kernels read them). -/
def footReads (t : Task) : List (Nat × Nat) :=
  match t.kind with
  | TaskKind.lu0T => [(t.kk, t.kk)]
  | TaskKind.fwdT => [(t.kk, t.kk), (t.kk, t.jj)]
  | TaskKind.bdivT => [(t.kk, t.kk), (t.ii, t.kk)]
  | TaskKind.bmodT => [(t.ii, t.kk), (t.kk, t.jj), (t.ii, t.jj)]

/-- The `depend(in : ...)` slots of the task's pragma
(sparselu-task-dep.c:163-189). -/
def dependIn (t : Task) : List (Nat × Nat) :=
  match t.kind with
  | TaskKind.lu0T => []
  | TaskKind.fwdT => [(t.kk, t.kk)]
  | TaskKind.bdivT => [(t.kk, t.kk)]
  | TaskKind.bmodT => [(t.ii, t.kk), (t.kk, t.jj)]

/-- The `depend(inout : ...)` slots of the task's pragma
(sparselu-task-dep.c:163-189). -/
def dependInout (t : Task) : List (Nat × Nat) :=
  match t.kind with
  | TaskKind.lu0T => [(t.kk, t.kk)]
  | TaskKind.fwdT => [(t.kk, t.jj)]
  | TaskKind.bdivT => [(t.ii, t.kk)]
  | TaskKind.bmodT => [(t.ii, t.jj)]

/-- Some coordinate occurs in both lists. -/
def overlapB (l1 l2 : List (Nat × Nat)) : Bool :=
  l1.any (fun c => decide (c ∈ l2))

/-- The two tasks' footprints share a tile coordinate with at least one of
the two accesses being a write. -/
def hazardB (t1 t2 : Task) : Bool :=
  overlapB (footWrites t1) (footWrites t2 ++ footReads t2) ||
  overlapB (footReads t1) (footWrites t2)

/-- The two tasks' declared depend sets conflict (in/inout or inout/inout
on a common slot) -- the condition under which the OpenMP runtime orders
them. -/
def conflictB (t1 t2 : Task) : Bool :=
  overlapB (dependInout t1) (dependInout t2 ++ dependIn t2) ||
  overlapB (dependIn t1) (dependInout t2)

/-- Modelled from the spec: the OpenMP task runtime is not part of this
repository, so its contract is taken from the readiness rule of the spec
-- a task becomes ready only when every previously submitted task with a
conflicting depend set has completed.  A schedule assigns each submitted
task (by submission index) a start and finish instant; it is valid when
starts precede finishes and, for every depend-conflicting pair, the
earlier-submitted task finishes strictly before the later one starts. -/
def ValidSched (tr : List Task) (sch : List (Nat × Nat)) : Bool :=
  decide (sch.length = tr.length) &&
  (List.range tr.length).all (fun i =>
    decide ((sch.getD i (0, 0)).1 ≤ (sch.getD i (0, 0)).2) &&
    (List.range i).all (fun i' =>
      !(conflictB (tr.getD i' task0) (tr.getD i task0)) ||
      decide ((sch.getD i' (0, 0)).2 < (sch.getD i (0, 0)).1)))

/-- The run state of a factorization call: the grid, the trace of
submitted tasks in submission order, and the trace of fill-in allocation
events (`allocate_clean_block` calls on a grid slot) in order. -/
structure St : Type where
  g : Grid
  tasks : List Task
  allocs : List (Nat × Nat)

/-- Default state used with `Option.getD`. -/
def st0 : St :=
  ⟨fun _ _ => none, [], []⟩

/-- Run-state invariant tying a state to the initial grid `g0`: every
recorded task had all its written slots present at creation and no
task-body allocation; the fill-in allocation events are pairwise distinct;
slots present initially stay present and are never allocation targets; and
every allocation event hit an initially absent slot that is present from
then on. -/
def GoodSt (g0 : Grid) (s : St) : Prop :=
  (∀ t ∈ s.tasks, t.targetPresent = true ∧ t.bodyAlloc = false) ∧
  s.allocs.Nodup ∧
  (∀ i j : Nat, pres g0 i j = true → pres s.g i j = true ∧ (i, j) ∉ s.allocs) ∧
  (∀ p ∈ s.allocs, pres s.g p.1 p.2 = true ∧ pres g0 p.1 p.2 = false)

/-- An oracle-dependent computation only ever fails with `exit(101)`. -/
def Ok101 {α : Type} (e : Except Nat α) : Prop :=
  ∀ m, e = Except.error m → m = 101

/-- `if (BENCH[ii][jj] == NULL) BENCH[ii][jj] = allocate_clean_block(...)`,
recording the allocation event when it happens. -/
def ensureSt (s : St) (ii jj : Nat) : St :=
  match s.g ii jj with
  | some _ => s
  | none =>
      { g := updG s.g ii jj (some allocate_clean_block),
        tasks := s.tasks,
        allocs := s.allocs ++ [(ii, jj)] }

namespace TaskDep

/-- One iteration of the `fwd` submission loop of the task-dep version
(sparselu-task-dep.c:166-172): guarded by `BENCH[kk][jj] != NULL`; the
task body `fwd(BENCH[kk][kk], BENCH[kk][jj], b)` dereferences the
unguarded diagonal slot, so an absent diagonal aborts the run. -/
def fwdBody (b kk jj : Nat) (s : St) : Option St :=
  match s.g kk jj with
  | none => some s
  | some c =>
    match s.g kk kk with
    | none => none
    | some d =>
        some { g := updG s.g kk jj (some (fwd b d c)),
               tasks := s.tasks ++
                 [⟨TaskKind.fwdT, kk, kk, jj, (s.g kk jj).isSome, false⟩],
               allocs := s.allocs }

/-- The `fwd` submission loop `for (jj = kk+1; jj < n; jj++)`. -/
def fwdPass (b n kk : Nat) (s : St) : Option St :=
  foldRange (kk+1) n (fun os jj => os.bind (fwdBody b kk jj)) (some s)

/-- One iteration of the `bdiv` submission loop
(sparselu-task-dep.c:173-179). -/
def bdivBody (b kk ii : Nat) (s : St) : Option St :=
  match s.g ii kk with
  | none => some s
  | some r =>
    match s.g kk kk with
    | none => none
    | some d =>
        some { g := updG s.g ii kk (some (bdiv b d r)),
               tasks := s.tasks ++
                 [⟨TaskKind.bdivT, kk, ii, kk, (s.g ii kk).isSome, false⟩],
               allocs := s.allocs }

/-- The `bdiv` submission loop `for (ii = kk+1; ii < n; ii++)`. -/
def bdivPass (b n kk : Nat) (s : St) : Option St :=
  foldRange (kk+1) n (fun os ii => os.bind (bdivBody b kk ii)) (some s)

/-- One iteration of the inner `bmod` submission loop
(sparselu-task-dep.c:183-191): guarded by `BENCH[kk][jj] != NULL`; the
issuing thread allocates the fill-in target synchronously when absent,
then submits the task, whose body re-reads the three slots. -/
def bmodBody (b kk ii jj : Nat) (s : St) : Option St :=
  match s.g kk jj with
  | none => some s
  | some _ =>
    let s1 := ensureSt s ii jj
    let s2 : St :=
      { g := s1.g,
        tasks := s1.tasks ++
          [⟨TaskKind.bmodT, kk, ii, jj, (s1.g ii jj).isSome, false⟩],
        allocs := s1.allocs }
    match s2.g ii kk, s2.g kk jj, s2.g ii jj with
    | some r, some c, some t =>
        some { g := updG s2.g ii jj (some (bmod b r c t)),
               tasks := s2.tasks, allocs := s2.allocs }
    | _, _, _ => none

/-- One iteration of the outer `bmod` loop (sparselu-task-dep.c:181-182):
guarded by `BENCH[ii][kk] != NULL`. -/
def bmodOuter (b n kk ii : Nat) (s : St) : Option St :=
  match s.g ii kk with
  | none => some s
  | some _ =>
      foldRange (kk+1) n (fun os jj => os.bind (bmodBody b kk ii jj)) (some s)

/-- The outer `bmod` loop `for (ii = kk+1; ii < n; ii++)`. -/
def bmodPass (b n kk : Nat) (s : St) : Option St :=
  foldRange (kk+1) n (fun os ii => os.bind (bmodOuter b n kk ii)) (some s)

/-- Outer step `kk` of `sparselu_par_call` (sparselu-task-dep.c:162-192):
the `lu0` task on the unguarded diagonal slot, then the `fwd`, `bdiv` and
`bmod` submission loops.  Tasks execute at their submission point. -/
def parStep (b n kk : Nat) (s : St) : Option St :=
  match s.g kk kk with
  | none => none
  | some d =>
    let s1 : St :=
      { g := updG s.g kk kk (some (lu0 b d)),
        tasks := s.tasks ++
          [⟨TaskKind.lu0T, kk, kk, kk, (s.g kk kk).isSome, false⟩],
        allocs := s.allocs }
    (fwdPass b n kk s1).bind (fun s2 =>
      (bdivPass b n kk s2).bind (fun s3 => bmodPass b n kk s3))

/-- `sparselu_par_call(BENCH, n, b)` (sparselu-task-dep.c:156-195) under
the sequential task elaboration, with task/allocation instrumentation. -/
def sparselu_par_call (b n : Nat) (g : Grid) : Option St :=
  foldRange 0 n (fun os kk => os.bind (parStep b n kk)) (some ⟨g, [], []⟩)

/-- The tasks step `kk` submits, as a function of the grid at the start of
the step's submission pass: one `lu0`, one `fwd` per present `[kk][jj]`,
one `bdiv` per present `[ii][kk]`, and one `bmod` per pair of present
`[ii][kk]`, `[kk][jj]`. -/
def stepTaskList (n kk : Nat) (g : Grid) : List Task :=
  ⟨TaskKind.lu0T, kk, kk, kk, true, false⟩ ::
  ((List.range' (kk+1) (n - (kk+1))).filterMap (fun jj =>
      if pres g kk jj = true then
        some ⟨TaskKind.fwdT, kk, kk, jj, true, false⟩
      else none) ++
    (((List.range' (kk+1) (n - (kk+1))).filterMap (fun ii =>
      if pres g ii kk = true then
        some ⟨TaskKind.bdivT, kk, ii, kk, true, false⟩
      else none)) ++
    concatMap (fun ii =>
      if pres g ii kk = true then
        (List.range' (kk+1) (n - (kk+1))).filterMap (fun jj =>
          if pres g kk jj = true then
            some ⟨TaskKind.bmodT, kk, ii, jj, true, false⟩
          else none)
      else []) (List.range' (kk+1) (n - (kk+1)))))

end TaskDep

/-- One iteration of the sequential reference's `fwd` loop
(sparselu-task.c:203-207), guard `BENCH[kk][jj] != NULL &&
BENCH[kk][kk] != NULL`. -/
def seqFwdBody (b kk : Nat) (g : Grid) (jj : Nat) : Grid :=
  match g kk jj with
  | none => g
  | some c =>
    match g kk kk with
    | none => g
    | some d => updG g kk jj (some (fwd b d c))

/-- One iteration of the sequential reference's `bdiv` loop
(sparselu-task.c:208-212). -/
def seqBdivBody (b kk : Nat) (g : Grid) (ii : Nat) : Grid :=
  match g ii kk with
  | none => g
  | some r =>
    match g kk kk with
    | none => g
    | some d => updG g ii kk (some (bdiv b d r))

/-- One iteration of the sequential reference's inner `bmod` loop
(sparselu-task.c:215-222): guard, fill-in allocation, kernel call. -/
def seqBmodInner (b kk ii : Nat) (g : Grid) (jj : Nat) : Grid :=
  match g kk jj with
  | none => g
  | some c =>
    let g1 := if (g ii jj).isSome then g else updG g ii jj (some allocate_clean_block)
    match g1 ii kk, g1 ii jj with
    | some r, some t => updG g1 ii jj (some (bmod b r c t))
    | _, _ => g1

/-- One iteration of the sequential reference's outer `bmod` loop
(sparselu-task.c:213-224). -/
def seqBmodOuter (b n kk : Nat) (g : Grid) (ii : Nat) : Grid :=
  match g ii kk with
  | none => g
  | some _ => foldRange (kk+1) n (seqBmodInner b kk ii) g

/-- Outer step `kk` of `sparselu_seq_call` (sparselu-task.c:199-225):
guarded `lu0`, then the `fwd`, `bdiv` and `bmod` loops. -/
def sparselu_seq_step (b n : Nat) (g : Grid) (kk : Nat) : Grid :=
  let g1 :=
    match g kk kk with
    | none => g
    | some d => updG g kk kk (some (lu0 b d))
  let g2 := foldRange (kk+1) n (seqFwdBody b kk) g1
  let g3 := foldRange (kk+1) n (seqBdivBody b kk) g2
  foldRange (kk+1) n (seqBmodOuter b n kk) g3

/-- `sparselu_seq_call(BENCH, n, b)` (sparselu-task.c:195-226), the
sequential reference implementation. -/
def sparselu_seq_call (b n : Nat) (g : Grid) : Grid :=
  foldRange 0 n (sparselu_seq_step b n) g

namespace TaskOnly

/-- One iteration of the `fwd` submission loop of the plain-task version
(sparselu-task.c:165-170); the task carries no depend clause, but under
execution-at-submission its behaviour matches the task-dep one. -/
def fwdBody (b kk jj : Nat) (s : St) : Option St :=
  match s.g kk jj with
  | none => some s
  | some c =>
    match s.g kk kk with
    | none => none
    | some d =>
        some { g := updG s.g kk jj (some (fwd b d c)),
               tasks := s.tasks ++
                 [⟨TaskKind.fwdT, kk, kk, jj, (s.g kk jj).isSome, false⟩],
               allocs := s.allocs }

/-- The `fwd` submission loop of the plain-task version. -/
def fwdPass (b n kk : Nat) (s : St) : Option St :=
  foldRange (kk+1) n (fun os jj => os.bind (fwdBody b kk jj)) (some s)

/-- One iteration of the `bdiv` submission loop of the plain-task version
(sparselu-task.c:171-176). -/
def bdivBody (b kk ii : Nat) (s : St) : Option St :=
  match s.g ii kk with
  | none => some s
  | some r =>
    match s.g kk kk with
    | none => none
    | some d =>
        some { g := updG s.g ii kk (some (bdiv b d r)),
               tasks := s.tasks ++
                 [⟨TaskKind.bdivT, kk, ii, kk, (s.g ii kk).isSome, false⟩],
               allocs := s.allocs }

/-- The `bdiv` submission loop of the plain-task version. -/
def bdivPass (b n kk : Nat) (s : St) : Option St :=
  foldRange (kk+1) n (fun os ii => os.bind (bdivBody b kk ii)) (some s)

/-- One iteration of the inner `bmod` submission loop of the plain-task
version (sparselu-task.c:182-189).  Unlike the task-dep version, the
fill-in check and allocation sit *inside* the task body
(sparselu-task.c:186-187), so the task is recorded first, with the
presence of its target sampled at submission, and the allocation is an
action of the task body. -/
def bmodBody (b kk ii jj : Nat) (s : St) : Option St :=
  match s.g kk jj with
  | none => some s
  | some _ =>
    let s1 : St :=
      { g := s.g,
        tasks := s.tasks ++
          [⟨TaskKind.bmodT, kk, ii, jj, (s.g ii jj).isSome, !(s.g ii jj).isSome⟩],
        allocs := s.allocs }
    let s2 := ensureSt s1 ii jj
    match s2.g ii kk, s2.g kk jj, s2.g ii jj with
    | some r, some c, some t =>
        some { g := updG s2.g ii jj (some (bmod b r c t)),
               tasks := s2.tasks, allocs := s2.allocs }
    | _, _, _ => none

/-- One iteration of the outer `bmod` loop of the plain-task version
(sparselu-task.c:180-181). -/
def bmodOuter (b n kk ii : Nat) (s : St) : Option St :=
  match s.g ii kk with
  | none => some s
  | some _ =>
      foldRange (kk+1) n (fun os jj => os.bind (bmodBody b kk ii jj)) (some s)

/-- The outer `bmod` loop of the plain-task version. -/
def bmodPass (b n kk : Nat) (s : St) : Option St :=
  foldRange (kk+1) n (fun os ii => os.bind (bmodOuter b n kk ii)) (some s)

/-- Outer step `kk` of the plain-task `sparselu_par_call`
(sparselu-task.c:163-192): `lu0` is a direct call of the issuing thread,
not a task (sparselu-task.c:164), then the three task loops with their
taskwaits (no-ops under execution-at-submission). -/
def parStep (b n kk : Nat) (s : St) : Option St :=
  match s.g kk kk with
  | none => none
  | some d =>
    let s1 : St :=
      { g := updG s.g kk kk (some (lu0 b d)),
        tasks := s.tasks, allocs := s.allocs }
    (fwdPass b n kk s1).bind (fun s2 =>
      (bdivPass b n kk s2).bind (fun s3 => bmodPass b n kk s3))

/-- `sparselu_par_call(BENCH, n, b)` of the plain-task version
(sparselu-task.c:157-193). -/
def sparselu_par_call (b n : Nat) (g : Grid) : Option St :=
  foldRange 0 n (fun os kk => os.bind (parStep b n kk)) (some ⟨g, [], []⟩)

end TaskOnly

/-- Sum over both-present tiles of squared entry differences -- the
numerator of the squared RMS error the driver computes
(sparselu-task.c:284-299). -/
def rmsNum (b n : Nat) (g1 g2 : Grid) : ℚ :=
  foldRange 0 n (fun acc i =>
    foldRange 0 n (fun acc j =>
      match g1 i j, g2 i j with
      | some t1, some t2 =>
          foldRange 0 b (fun acc r =>
            foldRange 0 b (fun acc c =>
              acc + (t1 r c - t2 r c) ^ 2) acc) acc
      | _, _ => acc) acc) 0

/-- `lu0` as the specification words it: for `k` in `[0, b)`, for each
`i > k`, first `diag[i][k]` becomes `diag[i][k] / diag[k][k]`, then for
each `j > k`, `diag[i][j]` becomes `diag[i][j] - diag[i][k] * diag[k][j]`,
in that iteration order, with no pivoting and no zero-pivot handling. -/
def lu0_spec (b : Nat) (diag : Tile) : Tile :=
  (List.range b).foldl (fun diag k =>
    (List.range b).foldl (fun diag i =>
      if k < i then
        let diag1 := updT diag i k (diag i k / diag k k)
        (List.range b).foldl (fun diag j =>
          if k < j then updT diag i j (diag i j - diag i k * diag k j)
          else diag) diag1
      else diag) diag) diag

/-- One `malloc`, checked against the failure oracle `o`: the `c`-th
allocation of the process either succeeds (advancing the allocation
counter) or makes the process `exit(101)`
(sparselu-task-dep.c:24-27, 30-33, 138-141, 144-147). -/
def malloc (o : Nat → Bool) (c : Nat) : Except Nat Nat :=
  if o c then Except.ok (c + 1) else Except.error 101

/-- `allocate_clean_block` (sparselu-task-dep.c:22-39) with its
allocations drawn from the oracle: one `malloc` for the row-pointer
array, then one per tile row, each checked; any failure is `exit(101)`.
On success it returns the zero-filled tile. -/
def allocate_clean_blockM (o : Nat → Bool) (b c : Nat) : Except Nat (Tile × Nat) :=
  (malloc o c).bind (fun c1 =>
    (foldRange 0 b (fun e _ => e.bind (fun c2 => malloc o c2)) (Except.ok c1)).map
      (fun c3 => (allocate_clean_block, c3)))

/-- `genmat` with its tile allocations drawn from the oracle. -/
def genmatM (o : Nat → Bool) (n b c : Nat) : Except Nat (Grid × Nat) :=
  foldRange 0 n (fun e ii =>
    e.bind (fun p =>
      foldRange 0 n (fun e jj =>
        e.bind (fun p =>
          if nullEntry ii jj then Except.ok (updG p.1 ii jj none, p.2)
          else
            (allocate_clean_blockM o b p.2).map (fun q =>
              (updG p.1 ii jj (some (fillTile b 1325).1), q.2))))
        (Except.ok p)))
    (Except.ok ((fun _ _ => none), c))

/-- `sparselu_init` (sparselu-task-dep.c:136-150) with its allocations
drawn from the oracle: one `malloc` for the grid, one per grid row, each
checked with `exit(101)` on failure, then `genmat`. -/
def sparselu_initM (o : Nat → Bool) (n b c : Nat) : Except Nat (Grid × Nat) :=
  (malloc o c).bind (fun c1 =>
    (foldRange 0 n (fun e _ => e.bind (fun c2 => malloc o c2)) (Except.ok c1)).bind
      (fun c3 => genmatM o n b c3))

/-- Concrete all-present `2 × 2` grid of constant tiles, used as a witness
input. -/
def gTwo : Grid :=
  fun i j => if i < 2 ∧ j < 2 then some (fun _ _ => 1) else none

/-- Concrete `2 × 2` grid with `[0][0]`, `[0][1]`, `[1][0]` present and
`[1][1]` absent: the smallest input on which a `bmod` task targets an
initially absent fill-in slot. -/
def gFill : Grid :=
  fun i j =>
    if i = 0 ∧ j = 0 then some (fun _ _ => 1)
    else if i = 0 ∧ j = 1 then some (fun _ _ => 1)
    else if i = 1 ∧ j = 0 then some (fun _ _ => 1)
    else none

/-- Concrete `1 × 1` grid, used as a witness input. -/
def gOne : Grid :=
  fun i j => if i = 0 ∧ j = 0 then some (fun _ _ => 1) else none

end SparseLU

namespace SparseLU

theorem foldRange_nil {α : Type} (lo hi : Nat) (f : α → Nat → α) (init : α)
    (h : hi ≤ lo) : foldRange lo hi f init = init := by
  simp [foldRange, Nat.sub_eq_zero_of_le h]

theorem foldl_bind_none {α σ : Type} (body : α → σ → Option σ) (l : List α) :
    l.foldl (fun os x => os.bind (body x)) none = none := by
  induction l with
  | nil => rfl
  | cons x tl ih => simpa using ih

theorem foldl_bind_inv {α σ : Type} {P : σ → Prop} (body : α → σ → Option σ) (l : List α)
    (hb : ∀ x s s', x ∈ l → P s → body x s = some s' → P s') :
    ∀ s s', P s → l.foldl (fun os x => os.bind (body x)) (some s) = some s' → P s' := by
  induction l with
  | nil =>
      intro s s' hP h
      simp only [List.foldl_nil, Option.some.injEq] at h
      exact h ▸ hP
  | cons x tl ih =>
      intro s s' hP h
      rw [List.foldl_cons, Option.some_bind] at h
      cases hx : body x s with
      | none =>
          rw [hx] at h
          rw [foldl_bind_none] at h
          exact absurd h (by simp)
      | some s1 =>
          rw [hx] at h
          exact ih (fun y u u' hy => hb y u u' (List.mem_cons_of_mem x hy)) s1 s'
            (hb x s s1 (List.mem_cons_self x tl) hP hx) h

theorem foldl_bind_sim {σ τ : Type} {P : σ → Prop} {R : σ → τ → Prop}
    (body : Nat → σ → Option σ) (gbody : τ → Nat → τ) (l : List Nat)
    (hb : ∀ x s t, x ∈ l → P s → R s t →
      ∃ s', body x s = some s' ∧ P s' ∧ R s' (gbody t x)) :
    ∀ s t, P s → R s t →
      ∃ s', l.foldl (fun os x => os.bind (body x)) (some s) = some s' ∧ P s' ∧
        R s' (l.foldl gbody t) := by
  induction l with
  | nil =>
      intro s t hP hR
      exact ⟨s, rfl, hP, hR⟩
  | cons x tl ih =>
      intro s t hP hR
      obtain ⟨s1, hx, hP1, hR1⟩ := hb x s t (List.mem_cons_self x tl) hP hR
      obtain ⟨s', hfold, hP', hR'⟩ :=
        ih (fun y u v hy => hb y u v (List.mem_cons_of_mem x hy)) s1 (gbody t x) hP1 hR1
      exact ⟨s', by rw [List.foldl_cons, Option.some_bind, hx]; exact hfold,
        hP', by rw [List.foldl_cons]; exact hR'⟩

theorem foldl_inv {α σ : Type} {P : σ → Prop} (f : σ → α → σ) (l : List α)
    (hf : ∀ s x, x ∈ l → P s → P (f s x)) : ∀ s, P s → P (l.foldl f s) := by
  induction l with
  | nil => intro s hP; simpa using hP
  | cons x tl ih =>
      intro s hP
      rw [List.foldl_cons]
      exact ih (fun u y hy => hf u y (List.mem_cons_of_mem x hy)) (f s x)
        (hf s x (List.mem_cons_self x tl) hP)

theorem filterMap_congr_mem {α β : Type} {f h : α → Option β} (l : List α)
    (hfh : ∀ x ∈ l, f x = h x) : l.filterMap f = l.filterMap h := by
  induction l with
  | nil => rfl
  | cons x tl ih =>
      rw [List.filterMap_cons, List.filterMap_cons,
        hfh x (List.mem_cons_self x tl),
        ih (fun y hy => hfh y (List.mem_cons_of_mem x hy))]

theorem concatMap_congr_mem {α β : Type} {f h : α → List β} (l : List α)
    (hfh : ∀ x ∈ l, f x = h x) : concatMap f l = concatMap h l := by
  induction l with
  | nil => rfl
  | cons x tl ih =>
      show f x ++ concatMap f tl = h x ++ concatMap h tl
      rw [hfh x (List.mem_cons_self x tl),
        ih (fun y hy => hfh y (List.mem_cons_of_mem x hy))]

theorem length_filterMap_if {β : Type} (p : Nat → Bool) (f : Nat → β) (l : List Nat) :
    (l.filterMap (fun x => if p x = true then some (f x) else none)).length
      = (l.filter p).length := by
  induction l with
  | nil => rfl
  | cons x tl ih =>
      rw [List.filterMap_cons, List.filter_cons]
      cases hx : p x <;> simp [hx, ih]

theorem length_concatMap_if {β : Type} (p : Nat → Bool) (L : Nat → List β) (c : Nat)
    (hc : ∀ x, (L x).length = c) (l : List Nat) :
    (concatMap (fun x => if p x = true then L x else []) l).length
      = (l.filter p).length * c := by
  induction l with
  | nil => simp [concatMap]
  | cons x tl ih =>
      show ((if p x = true then L x else []) ++ _).length = _
      rw [List.length_append, List.filter_cons]
      cases hx : p x <;> simp [hx, ih, hc, Nat.succ_mul, Nat.add_comm]

theorem mem_range'_bounds {x s n : Nat} (h : x ∈ List.range' s n) :
    s ≤ x ∧ x < s + n := by
  rw [List.mem_range'] at h
  obtain ⟨i, hi, rfl⟩ := h
  omega

theorem card_Ico_filter_eq (a b : Nat) (p : Nat → Bool) :
    ((Finset.Ico a b).filter (fun x => p x = true)).card
      = ((List.range' a (b - a)).filter p).length := by
  rw [Nat.Ico_eq_range']
  simp [Finset.filter, Finset.card, Multiset.filter_coe]

theorem foldl_guard_id {α : Type} (k : Nat) (f : α → Nat → α) (l : List Nat)
    (h : ∀ x ∈ l, ¬ k < x) :
    ∀ init, l.foldl (fun s x => if k < x then f s x else s) init = init := by
  induction l with
  | nil => intro init; rfl
  | cons x tl ih =>
      intro init
      rw [List.foldl_cons, if_neg (h x (List.mem_cons_self x tl))]
      exact ih (fun y hy => h y (List.mem_cons_of_mem x hy)) init

theorem foldl_guard_all {α : Type} (k : Nat) (f : α → Nat → α) (l : List Nat)
    (h : ∀ x ∈ l, k < x) :
    ∀ init, l.foldl (fun s x => if k < x then f s x else s) init = l.foldl f init := by
  induction l with
  | nil => intro init; rfl
  | cons x tl ih =>
      intro init
      rw [List.foldl_cons, List.foldl_cons, if_pos (h x (List.mem_cons_self x tl))]
      exact ih (fun y hy => h y (List.mem_cons_of_mem x hy)) (f init x)

theorem foldRange_guard {α : Type} (k b : Nat) (f : α → Nat → α) (init : α) :
    foldRange (k+1) b f init
      = (List.range b).foldl (fun s x => if k < x then f s x else s) init := by
  rcases le_or_lt (k+1) b with hb | hb
  · rw [List.range_eq_range']
    have hsplit : List.range' 0 b = List.range' 0 (k+1) ++ List.range' (k+1) (b - (k+1)) := by
      have := List.range'_append 0 (k+1) (b - (k+1)) 1
      simpa [Nat.add_sub_cancel' hb, Nat.sub_add_cancel hb] using this.symm
    rw [hsplit, List.foldl_append]
    rw [foldl_guard_id k f (List.range' 0 (k+1))
      (fun x hx => by have := (mem_range'_bounds hx).2; omega) init]
    rw [foldRange, foldl_guard_all k f (List.range' (k+1) (b - (k+1)))
      (fun x hx => by have := (mem_range'_bounds hx).1; omega) init]
  · rw [foldRange_nil _ _ _ _ (by omega)]
    rw [List.range_eq_range']
    exact (foldl_guard_id k f (List.range' 0 b)
      (fun x hx => by have := (mem_range'_bounds hx).2; omega) init).symm

theorem updG_self (g : Grid) (a c : Nat) (v : Option Tile) : updG g a c v a c = v := by
  simp [updG]

theorem updG_ne (g : Grid) (a c : Nat) (v : Option Tile) {i j : Nat}
    (h : i ≠ a ∨ j ≠ c) : updG g a c v i j = g i j := by
  rcases h with h | h
  · simp [updG, h]
  · by_cases hi : i = a
    · simp [updG, hi, h]
    · simp [updG, hi]

theorem pres_some {g : Grid} {i j : Nat} (h : pres g i j = true) : ∃ t, g i j = some t := by
  simpa [pres, Option.isSome_iff_exists] using h

theorem pres_updG_some_pointwise {g : Grid} {a c : Nat} {w : Tile} (hw : g a c = some w)
    (v : Tile) : ∀ i j, pres (updG g a c (some v)) i j = pres g i j := by
  intro i j
  simp only [pres]
  by_cases hi : i = a
  · by_cases hj : j = c
    · rw [hi, hj, updG_self]; simp [hw]
    · rw [updG_ne g a c _ (Or.inr hj)]
  · rw [updG_ne g a c _ (Or.inl hi)]

theorem pres_updG_mono {g : Grid} {i j : Nat} (a c : Nat) (v : Tile)
    (h : pres g i j = true) : pres (updG g a c (some v)) i j = true := by
  simp only [pres] at h ⊢
  by_cases hi : i = a
  · by_cases hj : j = c
    · rw [hi, hj, updG_self]; rfl
    · rwa [updG_ne g a c _ (Or.inr hj)]
  · rwa [updG_ne g a c _ (Or.inl hi)]

end SparseLU

namespace SparseLU

theorem foldl_ext {α β : Type} (f h : α → β → α) (hfh : ∀ a x, f a x = h a x)
    (l : List β) (init : α) : l.foldl f init = l.foldl h init := by
  induction l generalizing init with
  | nil => rfl
  | cons x tl ih => rw [List.foldl_cons, List.foldl_cons, hfh, ih]

theorem foldl_id {α σ : Type} (f : σ → α → σ) (l : List α)
    (h : ∀ u x, f u x = u) : ∀ s, l.foldl f s = s := by
  induction l with
  | nil => intro s; rfl
  | cons x tl ih => intro s; rw [List.foldl_cons, h]; exact ih s

theorem foldRange_zero {α : Type} (b : Nat) (f : α → Nat → α) (init : α) :
    foldRange 0 b f init = (List.range b).foldl f init := by
  rw [foldRange, Nat.sub_zero, List.range_eq_range']

theorem lu0_eq_lu0_spec (b : Nat) (d : Tile) : lu0 b d = lu0_spec b d := by
  unfold lu0 lu0_spec
  rw [foldRange_zero]
  apply foldl_ext
  intro d k
  rw [foldRange_guard]
  apply foldl_ext
  intro d i
  by_cases h : k < i
  · rw [if_pos h, if_pos h]
    show foldRange (k+1) b _ _ = _
    rw [foldRange_guard]
  · rw [if_neg h, if_neg h]

theorem nullEntry_diag (k : Nat) : nullEntry k k = false := by
  have h1 : ¬ (k = k + 1) := by omega
  have h2 : ¬ (k + 1 = k) := by omega
  simp [nullEntry, h1, h2]

theorem genmat_diag {n : Nat} (b : Nat) {k : Nat} (hk : k < n) :
    pres (genmat n b) k k = true := by
  simp [genmat, pres, hk, nullEntry_diag]

theorem diagPresentB_genmat (n b : Nat) : diagPresentB (genmat n b) n = true := by
  simp only [diagPresentB, List.all_eq_true, List.mem_range]
  intro k hk
  simpa [pres] using genmat_diag b hk

theorem diagPresentB_iff (g : Grid) (n : Nat) :
    diagPresentB g n = true ↔ ∀ k, k < n → pres g k k = true := by
  simp [diagPresentB, List.all_eq_true, List.mem_range, pres]

theorem rmsNum_self (b n : Nat) (g : Grid) : rmsNum b n g g = 0 := by
  unfold rmsNum
  rw [foldRange_zero]
  apply foldl_id
  intro acc i
  rw [foldRange_zero]
  apply foldl_id
  intro acc j
  cases g i j with
  | none => rfl
  | some t =>
      show foldRange 0 b _ acc = acc
      rw [foldRange_zero]
      apply foldl_id
      intro acc r
      rw [foldRange_zero]
      apply foldl_id
      intro acc c
      simp

end SparseLU

namespace SparseLU

theorem ensureSt_present {s : St} {ii jj : Nat} {t : Tile} (h : s.g ii jj = some t) :
    ensureSt s ii jj = s := by
  simp [ensureSt, h]

theorem ensureSt_absent {s : St} {ii jj : Nat} (h : s.g ii jj = none) :
    ensureSt s ii jj
      = ⟨updG s.g ii jj (some allocate_clean_block), s.tasks, s.allocs ++ [(ii, jj)]⟩ := by
  simp [ensureSt, h]

theorem seqFwdBody_none {b kk : Nat} {g : Grid} {jj : Nat} (h : g kk jj = none) :
    seqFwdBody b kk g jj = g := by
  simp [seqFwdBody, h]

theorem seqFwdBody_some {b kk : Nat} {g : Grid} {jj : Nat} {c d : Tile}
    (hc : g kk jj = some c) (hd : g kk kk = some d) :
    seqFwdBody b kk g jj = updG g kk jj (some (fwd b d c)) := by
  simp [seqFwdBody, hc, hd]

theorem seqBdivBody_none {b kk : Nat} {g : Grid} {ii : Nat} (h : g ii kk = none) :
    seqBdivBody b kk g ii = g := by
  simp [seqBdivBody, h]

theorem seqBdivBody_some {b kk : Nat} {g : Grid} {ii : Nat} {r d : Tile}
    (hr : g ii kk = some r) (hd : g kk kk = some d) :
    seqBdivBody b kk g ii = updG g ii kk (some (bdiv b d r)) := by
  simp [seqBdivBody, hr, hd]

theorem seqBmodInner_none {b kk ii : Nat} {g : Grid} {jj : Nat} (h : g kk jj = none) :
    seqBmodInner b kk ii g jj = g := by
  simp [seqBmodInner, h]

theorem seqBmodInner_present {b kk ii : Nat} {g : Grid} {jj : Nat} {c r t : Tile}
    (hc : g kk jj = some c) (hr : g ii kk = some r) (ht : g ii jj = some t) :
    seqBmodInner b kk ii g jj = updG g ii jj (some (bmod b r c t)) := by
  simp [seqBmodInner, hc, hr, ht]

theorem seqBmodInner_absent {b kk ii : Nat} {g : Grid} {jj : Nat} {c r : Tile}
    (hc : g kk jj = some c) (hr : g ii kk = some r) (ha : g ii jj = none)
    (hjk : jj ≠ kk) :
    seqBmodInner b kk ii g jj
      = updG (updG g ii jj (some allocate_clean_block)) ii jj
          (some (bmod b r c allocate_clean_block)) := by
  have h1 : updG g ii jj (some allocate_clean_block) ii kk = some r := by
    rw [updG_ne g ii jj _ (Or.inr (Ne.symm hjk))]; exact hr
  have h2 : updG g ii jj (some allocate_clean_block) ii jj = some allocate_clean_block :=
    updG_self g ii jj _
  simp [seqBmodInner, hc, ha, h1, h2]

theorem seqBmodOuter_none {b n kk : Nat} {g : Grid} {ii : Nat} (h : g ii kk = none) :
    seqBmodOuter b n kk g ii = g := by
  simp [seqBmodOuter, h]

theorem seqBmodOuter_some {b n kk : Nat} {g : Grid} {ii : Nat} {r : Tile}
    (h : g ii kk = some r) :
    seqBmodOuter b n kk g ii = foldRange (kk+1) n (seqBmodInner b kk ii) g := by
  simp [seqBmodOuter, h]

namespace TaskDep

theorem fwdBody_none {b kk jj : Nat} {s : St} (h : s.g kk jj = none) :
    fwdBody b kk jj s = some s := by
  simp [fwdBody, h]

theorem fwdBody_some {b kk jj : Nat} {s : St} {c d : Tile}
    (hc : s.g kk jj = some c) (hd : s.g kk kk = some d) :
    fwdBody b kk jj s = some ⟨updG s.g kk jj (some (fwd b d c)),
      s.tasks ++ [⟨TaskKind.fwdT, kk, kk, jj, true, false⟩], s.allocs⟩ := by
  simp [fwdBody, hc, hd]

theorem bdivBody_none {b kk ii : Nat} {s : St} (h : s.g ii kk = none) :
    bdivBody b kk ii s = some s := by
  simp [bdivBody, h]

theorem bdivBody_some {b kk ii : Nat} {s : St} {r d : Tile}
    (hr : s.g ii kk = some r) (hd : s.g kk kk = some d) :
    bdivBody b kk ii s = some ⟨updG s.g ii kk (some (bdiv b d r)),
      s.tasks ++ [⟨TaskKind.bdivT, kk, ii, kk, true, false⟩], s.allocs⟩ := by
  simp [bdivBody, hr, hd]

theorem bmodBody_none {b kk ii jj : Nat} {s : St} (h : s.g kk jj = none) :
    bmodBody b kk ii jj s = some s := by
  simp [bmodBody, h]

theorem bmodBody_present {b kk ii jj : Nat} {s : St} {c r t : Tile}
    (hc : s.g kk jj = some c) (hr : s.g ii kk = some r) (ht : s.g ii jj = some t) :
    bmodBody b kk ii jj s = some ⟨updG s.g ii jj (some (bmod b r c t)),
      s.tasks ++ [⟨TaskKind.bmodT, kk, ii, jj, true, false⟩], s.allocs⟩ := by
  simp [bmodBody, hc, ensureSt_present ht, hr, ht]

theorem bmodBody_absent {b kk ii jj : Nat} {s : St} {c r : Tile}
    (hc : s.g kk jj = some c) (hr : s.g ii kk = some r) (ha : s.g ii jj = none)
    (hik : ii ≠ kk) (hjk : jj ≠ kk) :
    bmodBody b kk ii jj s
      = some ⟨updG (updG s.g ii jj (some allocate_clean_block)) ii jj
            (some (bmod b r c allocate_clean_block)),
          s.tasks ++ [⟨TaskKind.bmodT, kk, ii, jj, true, false⟩],
          s.allocs ++ [(ii, jj)]⟩ := by
  have h1 : updG s.g ii jj (some allocate_clean_block) ii kk = some r := by
    rw [updG_ne s.g ii jj _ (Or.inr (Ne.symm hjk))]; exact hr
  have h2 : updG s.g ii jj (some allocate_clean_block) kk jj = some c := by
    rw [updG_ne s.g ii jj _ (Or.inl (Ne.symm hik))]; exact hc
  have h3 : updG s.g ii jj (some allocate_clean_block) ii jj = some allocate_clean_block :=
    updG_self s.g ii jj _
  simp [bmodBody, hc, ensureSt_absent ha, h1, h2, h3]

end TaskDep

end SparseLU

namespace SparseLU

namespace TaskDep

theorem fwdAux (b kk : Nat) (l : List Nat) :
    ∀ s : St, pres s.g kk kk = true →
    ∃ s', l.foldl (fun os jj => os.bind (fwdBody b kk jj)) (some s) = some s' ∧
      s'.g = l.foldl (seqFwdBody b kk) s.g ∧
      s'.tasks = s.tasks ++ l.filterMap (fun jj =>
        if pres s.g kk jj = true then
          some ⟨TaskKind.fwdT, kk, kk, jj, true, false⟩
        else none) ∧
      s'.allocs = s.allocs ∧
      (∀ i j, pres s'.g i j = pres s.g i j) := by
  induction l with
  | nil =>
      intro s _
      exact ⟨s, rfl, rfl, by simp, rfl, fun i j => rfl⟩
  | cons jj tl ih =>
      intro s hd
      cases hc : s.g kk jj with
      | none =>
          obtain ⟨s', h1, h2, h3, h4, h5⟩ := ih s hd
          refine ⟨s', ?_, ?_, ?_, h4, h5⟩
          · rw [List.foldl_cons, Option.some_bind, fwdBody_none hc]; exact h1
          · rw [List.foldl_cons, seqFwdBody_none hc]; exact h2
          · rw [List.filterMap_cons]
            have : pres s.g kk jj = false := by simp [pres, hc]
            simp only [this, Bool.false_eq_true, if_neg (by simp : ¬ (false = true))]
            exact h3
      | some c =>
          obtain ⟨d, hd'⟩ := pres_some hd
          have hpP : pres s.g kk jj = true := by simp [pres, hc]
          have hpw := pres_updG_some_pointwise hc (fwd b d c)
          have hs1 : pres (updG s.g kk jj (some (fwd b d c))) kk kk = true := by
            rw [hpw kk kk]; exact hd
          obtain ⟨s', h1, h2, h3, h4, h5⟩ :=
            ih ⟨updG s.g kk jj (some (fwd b d c)),
                s.tasks ++ [⟨TaskKind.fwdT, kk, kk, jj, true, false⟩], s.allocs⟩ hs1
          refine ⟨s', ?_, ?_, ?_, h4, ?_⟩
          · rw [List.foldl_cons, Option.some_bind, fwdBody_some hc hd']; exact h1
          · rw [List.foldl_cons, seqFwdBody_some hc hd']; exact h2
          · rw [List.filterMap_cons]
            simp only [if_pos hpP]
            rw [h3]
            rw [filterMap_congr_mem tl (fun jj' _ => by rw [hpw kk jj'])]
            simp
          · intro i j
            rw [h5 i j, hpw i j]

theorem bdivAux (b kk : Nat) (l : List Nat) :
    ∀ s : St, pres s.g kk kk = true →
    ∃ s', l.foldl (fun os ii => os.bind (bdivBody b kk ii)) (some s) = some s' ∧
      s'.g = l.foldl (seqBdivBody b kk) s.g ∧
      s'.tasks = s.tasks ++ l.filterMap (fun ii =>
        if pres s.g ii kk = true then
          some ⟨TaskKind.bdivT, kk, ii, kk, true, false⟩
        else none) ∧
      s'.allocs = s.allocs ∧
      (∀ i j, pres s'.g i j = pres s.g i j) := by
  induction l with
  | nil =>
      intro s _
      exact ⟨s, rfl, rfl, by simp, rfl, fun i j => rfl⟩
  | cons ii tl ih =>
      intro s hd
      cases hr : s.g ii kk with
      | none =>
          obtain ⟨s', h1, h2, h3, h4, h5⟩ := ih s hd
          refine ⟨s', ?_, ?_, ?_, h4, h5⟩
          · rw [List.foldl_cons, Option.some_bind, bdivBody_none hr]; exact h1
          · rw [List.foldl_cons, seqBdivBody_none hr]; exact h2
          · rw [List.filterMap_cons]
            have : pres s.g ii kk = false := by simp [pres, hr]
            simp only [this, Bool.false_eq_true, if_neg (by simp : ¬ (false = true))]
            exact h3
      | some r =>
          obtain ⟨d, hd'⟩ := pres_some hd
          have hpP : pres s.g ii kk = true := by simp [pres, hr]
          have hpw := pres_updG_some_pointwise hr (bdiv b d r)
          have hs1 : pres (updG s.g ii kk (some (bdiv b d r))) kk kk = true := by
            rw [hpw kk kk]; exact hd
          obtain ⟨s', h1, h2, h3, h4, h5⟩ :=
            ih ⟨updG s.g ii kk (some (bdiv b d r)),
                s.tasks ++ [⟨TaskKind.bdivT, kk, ii, kk, true, false⟩], s.allocs⟩ hs1
          refine ⟨s', ?_, ?_, ?_, h4, ?_⟩
          · rw [List.foldl_cons, Option.some_bind, bdivBody_some hr hd']; exact h1
          · rw [List.foldl_cons, seqBdivBody_some hr hd']; exact h2
          · rw [List.filterMap_cons]
            simp only [if_pos hpP]
            rw [h3]
            rw [filterMap_congr_mem tl (fun ii' _ => by rw [hpw ii' kk])]
            simp
          · intro i j
            rw [h5 i j, hpw i j]

end TaskDep

end SparseLU

namespace SparseLU

namespace TaskDep

theorem bmodInnerAux (b kk ii : Nat) (hki : kk < ii) (l : List Nat)
    (hl : ∀ x ∈ l, kk < x) :
    ∀ s : St, pres s.g ii kk = true →
    ∃ s', l.foldl (fun os jj => os.bind (bmodBody b kk ii jj)) (some s) = some s' ∧
      s'.g = l.foldl (seqBmodInner b kk ii) s.g ∧
      s'.tasks = s.tasks ++ l.filterMap (fun jj =>
        if pres s.g kk jj = true then
          some ⟨TaskKind.bmodT, kk, ii, jj, true, false⟩
        else none) ∧
      (∀ x, pres s'.g x kk = pres s.g x kk) ∧
      (∀ x, pres s'.g kk x = pres s.g kk x) ∧
      (∀ i j, pres s.g i j = true → pres s'.g i j = true) := by
  induction l with
  | nil =>
      intro s _
      exact ⟨s, rfl, rfl, by simp, fun x => rfl, fun x => rfl, fun i j h => h⟩
  | cons jj tl ih =>
      intro s hp
      have hkj : kk < jj := hl jj (List.mem_cons_self jj tl)
      have hjk : jj ≠ kk := by omega
      have hik : ii ≠ kk := by omega
      have ihtl := ih (fun x hx => hl x (List.mem_cons_of_mem jj hx))
      cases hc : s.g kk jj with
      | none =>
          obtain ⟨s', h1, h2, h3, h4, h5, h6⟩ := ihtl s hp
          refine ⟨s', ?_, ?_, ?_, h4, h5, h6⟩
          · rw [List.foldl_cons, Option.some_bind, bmodBody_none hc]; exact h1
          · rw [List.foldl_cons, seqBmodInner_none hc]; exact h2
          · rw [List.filterMap_cons]
            have : pres s.g kk jj = false := by simp [pres, hc]
            simp only [this, Bool.false_eq_true, if_neg (by simp : ¬ (false = true))]
            exact h3
      | some c =>
          obtain ⟨r, hr⟩ := pres_some hp
          have hpc : pres s.g kk jj = true := by simp [pres, hc]
          cases ht : s.g ii jj with
          | some t =>
              have hpw := pres_updG_some_pointwise ht (bmod b r c t)
              have hs1 : pres (updG s.g ii jj (some (bmod b r c t))) ii kk = true := by
                rw [hpw ii kk]; exact hp
              obtain ⟨s', h1, h2, h3, h4, h5, h6⟩ :=
                ihtl ⟨updG s.g ii jj (some (bmod b r c t)),
                      s.tasks ++ [⟨TaskKind.bmodT, kk, ii, jj, true, false⟩],
                      s.allocs⟩ hs1
              refine ⟨s', ?_, ?_, ?_, ?_, ?_, ?_⟩
              · rw [List.foldl_cons, Option.some_bind, bmodBody_present hc hr ht]; exact h1
              · rw [List.foldl_cons, seqBmodInner_present hc hr ht]; exact h2
              · rw [List.filterMap_cons]
                simp only [if_pos hpc]
                rw [h3]
                rw [filterMap_congr_mem tl (fun jj' _ => by rw [hpw kk jj'])]
                simp
              · intro x; rw [h4 x, hpw x kk]
              · intro x; rw [h5 x, hpw kk x]
              · intro i j h; exact h6 i j (by rwa [hpw i j])
          | none =>
              have pres1 : ∀ x,
                  pres (updG (updG s.g ii jj (some allocate_clean_block)) ii jj
                    (some (bmod b r c allocate_clean_block))) x kk = pres s.g x kk := by
                intro x
                simp only [pres]
                rw [updG_ne _ ii jj _ (Or.inr (Ne.symm hjk)),
                  updG_ne _ ii jj _ (Or.inr (Ne.symm hjk))]
              have pres2 : ∀ x,
                  pres (updG (updG s.g ii jj (some allocate_clean_block)) ii jj
                    (some (bmod b r c allocate_clean_block))) kk x = pres s.g kk x := by
                intro x
                simp only [pres]
                rw [updG_ne _ ii jj _ (Or.inl (Ne.symm hik)),
                  updG_ne _ ii jj _ (Or.inl (Ne.symm hik))]
              have mono : ∀ i j, pres s.g i j = true →
                  pres (updG (updG s.g ii jj (some allocate_clean_block)) ii jj
                    (some (bmod b r c allocate_clean_block))) i j = true := by
                intro i j h
                exact pres_updG_mono ii jj _ (pres_updG_mono ii jj _ h)
              have hs1 : pres (updG (updG s.g ii jj (some allocate_clean_block)) ii jj
                  (some (bmod b r c allocate_clean_block))) ii kk = true := by
                rw [pres1 ii]; exact hp
              obtain ⟨s', h1, h2, h3, h4, h5, h6⟩ :=
                ihtl ⟨updG (updG s.g ii jj (some allocate_clean_block)) ii jj
                        (some (bmod b r c allocate_clean_block)),
                      s.tasks ++ [⟨TaskKind.bmodT, kk, ii, jj, true, false⟩],
                      s.allocs ++ [(ii, jj)]⟩ hs1
              refine ⟨s', ?_, ?_, ?_, ?_, ?_, ?_⟩
              · rw [List.foldl_cons, Option.some_bind, bmodBody_absent hc hr ht hik hjk]
                exact h1
              · rw [List.foldl_cons, seqBmodInner_absent hc hr ht hjk]; exact h2
              · rw [List.filterMap_cons]
                simp only [if_pos hpc]
                rw [h3]
                rw [filterMap_congr_mem tl (fun jj' _ => by rw [pres2 jj'])]
                simp
              · intro x; rw [h4 x, pres1 x]
              · intro x; rw [h5 x, pres2 x]
              · intro i j h; exact h6 i j (mono i j h)

theorem concatMap_cons {α β : Type} (f : α → List β) (x : α) (l : List α) :
    concatMap f (x :: l) = f x ++ concatMap f l := rfl

theorem bmodOuterAux (b n kk : Nat) (lII : List Nat) (hlII : ∀ x ∈ lII, kk < x) :
    ∀ s : St,
    ∃ s', lII.foldl (fun os ii => os.bind (bmodOuter b n kk ii)) (some s) = some s' ∧
      s'.g = lII.foldl (seqBmodOuter b n kk) s.g ∧
      s'.tasks = s.tasks ++ concatMap (fun ii =>
        if pres s.g ii kk = true then
          (List.range' (kk+1) (n - (kk+1))).filterMap (fun jj =>
            if pres s.g kk jj = true then
              some ⟨TaskKind.bmodT, kk, ii, jj, true, false⟩
            else none)
        else []) lII ∧
      (∀ x, pres s'.g x kk = pres s.g x kk) ∧
      (∀ x, pres s'.g kk x = pres s.g kk x) ∧
      (∀ i j, pres s.g i j = true → pres s'.g i j = true) := by
  induction lII with
  | nil =>
      intro s
      exact ⟨s, rfl, rfl, by simp [concatMap], fun x => rfl, fun x => rfl, fun i j h => h⟩
  | cons ii tl ih =>
      intro s
      have hki : kk < ii := hlII ii (List.mem_cons_self ii tl)
      have ihtl := ih (fun x hx => hlII x (List.mem_cons_of_mem ii hx))
      cases hik : s.g ii kk with
      | none =>
          obtain ⟨s', h1, h2, h3, h4, h5, h6⟩ := ihtl s
          have hb : bmodOuter b n kk ii s = some s := by simp [bmodOuter, hik]
          have hpF : pres s.g ii kk = false := by simp [pres, hik]
          refine ⟨s', ?_, ?_, ?_, h4, h5, h6⟩
          · rw [List.foldl_cons, Option.some_bind, hb]; exact h1
          · rw [List.foldl_cons, seqBmodOuter_none hik]; exact h2
          · rw [concatMap_cons]
            simp only [hpF, Bool.false_eq_true, if_neg (by simp : ¬ (false = true)),
              List.nil_append]
            exact h3
      | some r =>
          have hpI : pres s.g ii kk = true := by simp [pres, hik]
          obtain ⟨s1, g1, t1, p1a, p1b, p1c, m1⟩ :=
            bmodInnerAux b kk ii hki (List.range' (kk+1) (n - (kk+1)))
              (fun x hx => (mem_range'_bounds hx).1) s hpI
          obtain ⟨s', h1, h2, h3, h4, h5, h6⟩ := ihtl s1
          have hcc : concatMap (fun x =>
              if pres s1.g x kk = true then
                (List.range' (kk+1) (n - (kk+1))).filterMap (fun jj =>
                  if pres s1.g kk jj = true then
                    some (⟨TaskKind.bmodT, kk, x, jj, true, false⟩ : Task)
                  else none)
              else []) tl
            = concatMap (fun x =>
              if pres s.g x kk = true then
                (List.range' (kk+1) (n - (kk+1))).filterMap (fun jj =>
                  if pres s.g kk jj = true then
                    some (⟨TaskKind.bmodT, kk, x, jj, true, false⟩ : Task)
                  else none)
              else []) tl := by
            apply concatMap_congr_mem
            intro x _
            rw [p1b x]
            by_cases hx : pres s.g x kk = true
            · rw [if_pos hx, if_pos hx]
              exact filterMap_congr_mem _ (fun jj' _ => by rw [p1c jj'])
            · rw [if_neg hx, if_neg hx]
          refine ⟨s', ?_, ?_, ?_, ?_, ?_, ?_⟩
          · rw [List.foldl_cons, Option.some_bind]
            have hb : bmodOuter b n kk ii s =
                (List.range' (kk+1) (n - (kk+1))).foldl
                  (fun os jj => os.bind (bmodBody b kk ii jj)) (some s) := by
              simp [bmodOuter, hik, foldRange]
            rw [hb, g1]
            exact h1
          · rw [List.foldl_cons, seqBmodOuter_some hik, h2, t1]
            show _ = List.foldl _ (foldRange (kk+1) n (seqBmodInner b kk ii) s.g) tl
            rw [foldRange]
          · rw [concatMap_cons]
            simp only [if_pos hpI]
            rw [h3, hcc, p1a, List.append_assoc]
          · intro x; rw [h4 x, p1b x]
          · intro x; rw [h5 x, p1c x]
          · intro i j h; exact h6 i j (m1 i j h)

end TaskDep

end SparseLU

namespace SparseLU

namespace TaskDep

theorem parStep_sim (b n kk : Nat) (s : St) (hd : pres s.g kk kk = true) :
    ∃ s', parStep b n kk s = some s' ∧
      s'.g = sparselu_seq_step b n s.g kk ∧
      s'.tasks = s.tasks ++ stepTaskList n kk s.g ∧
      (∀ i j, pres s.g i j = true → pres s'.g i j = true) := by
  obtain ⟨d, hd'⟩ := pres_some hd
  have hpw1 := pres_updG_some_pointwise hd' (lu0 b d)
  have h1d : pres (updG s.g kk kk (some (lu0 b d))) kk kk = true := by
    rw [hpw1 kk kk]; exact hd
  obtain ⟨s2, f1, f2, f3, f4, f5⟩ :=
    fwdAux b kk (List.range' (kk+1) (n - (kk+1)))
      ⟨updG s.g kk kk (some (lu0 b d)),
       s.tasks ++ [⟨TaskKind.lu0T, kk, kk, kk, true, false⟩], s.allocs⟩ h1d
  have h2pw : ∀ i j, pres s2.g i j = pres s.g i j := by
    intro i j; rw [f5 i j]; exact hpw1 i j
  have h2d : pres s2.g kk kk = true := by rw [h2pw kk kk]; exact hd
  obtain ⟨s3, d1, d2, d3, d4, d5⟩ :=
    bdivAux b kk (List.range' (kk+1) (n - (kk+1))) s2 h2d
  have h3pw : ∀ i j, pres s3.g i j = pres s.g i j := by
    intro i j; rw [d5 i j]; exact h2pw i j
  obtain ⟨s4, m1, m2, m3, m4, m5, m6⟩ :=
    bmodOuterAux b n kk (List.range' (kk+1) (n - (kk+1)))
      (fun x hx => (mem_range'_bounds hx).1) s3
  refine ⟨s4, ?_, ?_, ?_, ?_⟩
  · show parStep b n kk s = some s4
    simp only [parStep, hd', Option.isSome_some]
    show (fwdPass b n kk _).bind _ = some s4
    have hf : fwdPass b n kk
        ⟨updG s.g kk kk (some (lu0 b d)),
         s.tasks ++ [⟨TaskKind.lu0T, kk, kk, kk, true, false⟩], s.allocs⟩ = some s2 := f1
    rw [hf, Option.some_bind]
    have hb : bdivPass b n kk s2 = some s3 := d1
    rw [hb, Option.some_bind]
    exact m1
  · simp only [sparselu_seq_step, hd']
    rw [m2, d2, f2]
    rfl
  · rw [m3, d3, f3]
    simp only [h2pw, h3pw, hpw1]
    simp [stepTaskList, List.append_assoc]
  · intro i j h
    exact m6 i j (by rw [h3pw i j]; exact h)

end TaskDep

end SparseLU

namespace SparseLU

theorem par_run_sim (b n : Nat) (g : Grid) (hdiag : ∀ k, k < n → pres g k k = true) :
    ∃ st, TaskDep.sparselu_par_call b n g = some st ∧
      st.g = sparselu_seq_call b n g := by
  obtain ⟨st, h1, _, h2⟩ := foldl_bind_sim
    (P := fun s : St => ∀ k, k < n → pres s.g k k = true)
    (R := fun (s : St) (t : Grid) => s.g = t)
    (TaskDep.parStep b n) (sparselu_seq_step b n) (List.range' 0 (n - 0))
    (by
      intro kk s t hmem hP hR
      have hkn : kk < n := by have := (mem_range'_bounds hmem).2; omega
      obtain ⟨s', e1, e2, _, e4⟩ := TaskDep.parStep_sim b n kk s (hP kk hkn)
      exact ⟨s', e1, fun k hk => e4 k k (hP k hk), by rw [← hR]; exact e2⟩)
    ⟨g, [], []⟩ g hdiag rfl
  exact ⟨st, h1, h2⟩

end SparseLU

namespace SparseLU

theorem ensureSt_target (s : St) (ii jj : Nat) :
    pres (ensureSt s ii jj).g ii jj = true := by
  cases h : s.g ii jj with
  | none => rw [ensureSt_absent h]; simp [pres, updG_self]
  | some t => rw [ensureSt_present h]; simp [pres, h]

theorem goodSt_updG {g0 : Grid} {s : St} {a c : Nat} {w : Tile} (hg : GoodSt g0 s)
    (hw : s.g a c = some w) (v : Tile) :
    GoodSt g0 ⟨updG s.g a c (some v), s.tasks, s.allocs⟩ := by
  obtain ⟨h1, h2, h3, h4⟩ := hg
  have hpw := pres_updG_some_pointwise hw v
  refine ⟨h1, h2, ?_, ?_⟩
  · intro i j h
    obtain ⟨ha, hb⟩ := h3 i j h
    exact ⟨by rw [hpw i j]; exact ha, hb⟩
  · intro p hp
    obtain ⟨ha, hb⟩ := h4 p hp
    exact ⟨by rw [hpw p.1 p.2]; exact ha, hb⟩

theorem goodSt_task {g0 : Grid} {s : St} {t : Task} (hg : GoodSt g0 s)
    (htp : t.targetPresent = true) (hba : t.bodyAlloc = false) :
    GoodSt g0 ⟨s.g, s.tasks ++ [t], s.allocs⟩ := by
  obtain ⟨h1, h2, h3, h4⟩ := hg
  refine ⟨?_, h2, h3, h4⟩
  intro u hu
  rcases List.mem_append.mp hu with hu | hu
  · exact h1 u hu
  · rcases List.mem_singleton.mp hu with rfl
    exact ⟨htp, hba⟩

theorem goodSt_ensure {g0 : Grid} {s : St} (ii jj : Nat) (hg : GoodSt g0 s) :
    GoodSt g0 (ensureSt s ii jj) := by
  cases ht : s.g ii jj with
  | some t => rw [ensureSt_present ht]; exact hg
  | none =>
      rw [ensureSt_absent ht]
      obtain ⟨h1, h2, h3, h4⟩ := hg
      have hpF : pres s.g ii jj = false := by simp [pres, ht]
      have hnm : (ii, jj) ∉ s.allocs := by
        intro hmem
        have := (h4 (ii, jj) hmem).1
        rw [hpF] at this
        cases this
      refine ⟨h1, ?_, ?_, ?_⟩
      · simp [List.nodup_append, h2, hnm]
      · intro i j h
        obtain ⟨ha, hb⟩ := h3 i j h
        refine ⟨pres_updG_mono ii jj _ ha, ?_⟩
        intro hmem
        rcases List.mem_append.mp hmem with hmem | hmem
        · exact hb hmem
        · rcases List.mem_singleton.mp hmem with heq
          have : pres s.g i j = false := by
            rw [show i = ii from congrArg Prod.fst heq, show j = jj from congrArg Prod.snd heq]
            exact hpF
          rw [ha] at this
          cases this
      · intro p hp
        rcases List.mem_append.mp hp with hp | hp
        · obtain ⟨ha, hb⟩ := h4 p hp
          exact ⟨pres_updG_mono ii jj _ ha, hb⟩
        · rcases List.mem_singleton.mp hp with rfl
          refine ⟨by simp [pres, updG_self], ?_⟩
          cases hg0 : pres g0 ii jj with
          | false => rfl
          | true =>
              have := (h3 ii jj hg0).1
              rw [hpF] at this
              cases this

end SparseLU

namespace SparseLU

namespace TaskDep

theorem fwdBody_good {g0 : Grid} {b kk jj : Nat} {s s' : St} (hg : GoodSt g0 s)
    (h : fwdBody b kk jj s = some s') : GoodSt g0 s' := by
  cases hc : s.g kk jj with
  | none =>
      rw [fwdBody_none hc] at h
      injection h with h
      exact h ▸ hg
  | some c =>
      cases hd : s.g kk kk with
      | none => rw [fwdBody, hc, hd] at h; cases h
      | some d =>
          rw [fwdBody_some hc hd] at h
          injection h with h
          rw [← h]
          exact goodSt_task (goodSt_updG hg hc (fwd b d c)) rfl rfl

theorem bdivBody_good {g0 : Grid} {b kk ii : Nat} {s s' : St} (hg : GoodSt g0 s)
    (h : bdivBody b kk ii s = some s') : GoodSt g0 s' := by
  cases hr : s.g ii kk with
  | none =>
      rw [bdivBody_none hr] at h
      injection h with h
      exact h ▸ hg
  | some r =>
      cases hd : s.g kk kk with
      | none => rw [bdivBody, hr, hd] at h; cases h
      | some d =>
          rw [bdivBody_some hr hd] at h
          injection h with h
          rw [← h]
          exact goodSt_task (goodSt_updG hg hr (bdiv b d r)) rfl rfl

theorem bmodBody_good {g0 : Grid} {b kk ii jj : Nat} {s s' : St}
    (hik : ii ≠ kk) (hjk : jj ≠ kk) (hg : GoodSt g0 s)
    (h : bmodBody b kk ii jj s = some s') : GoodSt g0 s' := by
  cases hc : s.g kk jj with
  | none =>
      rw [bmodBody_none hc] at h
      injection h with h
      exact h ▸ hg
  | some c =>
      cases hr : s.g ii kk with
      | none =>
          exfalso
          cases ht : s.g ii jj with
          | some t =>
              rw [bmodBody, hc, ensureSt_present ht] at h
              simp [hr] at h
          | none =>
              have h1 : updG s.g ii jj (some allocate_clean_block) ii kk = none := by
                rw [updG_ne s.g ii jj _ (Or.inr (Ne.symm hjk))]; exact hr
              rw [bmodBody, hc, ensureSt_absent ht] at h
              simp only [h1] at h
              simp at h
      | some r =>
          cases ht : s.g ii jj with
          | some t =>
              rw [bmodBody_present hc hr ht] at h
              injection h with h
              rw [← h]
              exact goodSt_task (goodSt_updG hg ht (bmod b r c t)) rfl rfl
          | none =>
              rw [bmodBody_absent hc hr ht hik hjk] at h
              injection h with h
              rw [← h]
              have hA : GoodSt g0 ⟨updG s.g ii jj (some allocate_clean_block),
                  s.tasks, s.allocs ++ [(ii, jj)]⟩ := by
                have := goodSt_ensure ii jj hg
                rwa [ensureSt_absent ht] at this
              have hB := goodSt_task hA (t := ⟨TaskKind.bmodT, kk, ii, jj, true, false⟩) rfl rfl
              have hw : (updG s.g ii jj (some allocate_clean_block)) ii jj
                  = some allocate_clean_block := updG_self s.g ii jj _
              exact goodSt_updG hB hw (bmod b r c allocate_clean_block)

theorem fwdPass_good {g0 : Grid} {b n kk : Nat} {s s' : St} (hg : GoodSt g0 s)
    (h : fwdPass b n kk s = some s') : GoodSt g0 s' :=
  foldl_bind_inv (fwdBody b kk) (List.range' (kk+1) (n - (kk+1)))
    (fun _ u u' _ hu he => fwdBody_good hu he) s s' hg h

theorem bdivPass_good {g0 : Grid} {b n kk : Nat} {s s' : St} (hg : GoodSt g0 s)
    (h : bdivPass b n kk s = some s') : GoodSt g0 s' :=
  foldl_bind_inv (bdivBody b kk) (List.range' (kk+1) (n - (kk+1)))
    (fun _ u u' _ hu he => bdivBody_good hu he) s s' hg h

theorem bmodOuter_good {g0 : Grid} {b n kk ii : Nat} {s s' : St} (hik : ii ≠ kk)
    (hg : GoodSt g0 s) (h : bmodOuter b n kk ii s = some s') : GoodSt g0 s' := by
  cases hr : s.g ii kk with
  | none =>
      rw [bmodOuter, hr] at h
      injection h with h
      exact h ▸ hg
  | some r =>
      rw [bmodOuter, hr] at h
      exact foldl_bind_inv (bmodBody b kk ii) (List.range' (kk+1) (n - (kk+1)))
        (fun jj u u' hjj hu he =>
          bmodBody_good hik (by have := (mem_range'_bounds hjj).1; omega) hu he)
        s s' hg h

theorem bmodPass_good {g0 : Grid} {b n kk : Nat} {s s' : St} (hg : GoodSt g0 s)
    (h : bmodPass b n kk s = some s') : GoodSt g0 s' :=
  foldl_bind_inv (bmodOuter b n kk) (List.range' (kk+1) (n - (kk+1)))
    (fun ii u u' hii hu he =>
      bmodOuter_good (by have := (mem_range'_bounds hii).1; omega) hu he)
    s s' hg h

theorem parStep_good {g0 : Grid} {b n kk : Nat} {s s' : St} (hg : GoodSt g0 s)
    (h : parStep b n kk s = some s') : GoodSt g0 s' := by
  cases hd : s.g kk kk with
  | none => rw [parStep, hd] at h; cases h
  | some d =>
      rw [parStep, hd] at h
      simp only [Option.isSome_some] at h
      obtain ⟨s2, hf, hrest⟩ := Option.bind_eq_some.mp h
      obtain ⟨s3, hb, hm⟩ := Option.bind_eq_some.mp hrest
      have hg1 : GoodSt g0 ⟨updG s.g kk kk (some (lu0 b d)),
          s.tasks ++ [⟨TaskKind.lu0T, kk, kk, kk, true, false⟩], s.allocs⟩ :=
        goodSt_task (goodSt_updG hg hd (lu0 b d)) rfl rfl
      exact bmodPass_good (bdivPass_good (fwdPass_good hg1 hf) hb) hm

theorem par_call_good {b n : Nat} {g : Grid} {st : St}
    (h : sparselu_par_call b n g = some st) : GoodSt g st := by
  have hg0 : GoodSt g ⟨g, [], []⟩ := by
    refine ⟨by simp, by simp, ?_, by simp⟩
    intro i j hp
    exact ⟨hp, by simp⟩
  exact foldl_bind_inv (parStep b n) (List.range' 0 (n - 0))
    (fun kk u u' _ hu he => parStep_good hu he) ⟨g, [], []⟩ st hg0 h

end TaskDep

end SparseLU

namespace SparseLU

theorem ok101_ok {α : Type} (a : α) : Ok101 (Except.ok a) := by
  intro m h
  cases h

theorem ok101_malloc (o : Nat → Bool) (c : Nat) : Ok101 (malloc o c) := by
  intro m h
  unfold malloc at h
  by_cases ho : o c = true
  · rw [if_pos ho] at h; cases h
  · rw [if_neg ho] at h
    injection h with h
    exact h.symm

theorem ok101_bind {α β : Type} {e : Except Nat α} {f : α → Except Nat β}
    (he : Ok101 e) (hf : ∀ a, Ok101 (f a)) : Ok101 (e.bind f) := by
  intro m h
  cases e with
  | error m' =>
      simp [Except.bind] at h
      exact he m (by rw [h])
  | ok a =>
      exact hf a m (by simpa [Except.bind] using h)

theorem ok101_map {α β : Type} {e : Except Nat α} (f : α → β)
    (he : Ok101 e) : Ok101 (e.map f) := by
  intro m h
  cases e with
  | error m' =>
      simp [Except.map] at h
      exact he m (by rw [h])
  | ok a => simp [Except.map] at h

theorem ok101_foldl {α β : Type} (step : Except Nat β → α → Except Nat β) (l : List α)
    (hstep : ∀ e x, Ok101 e → Ok101 (step e x)) :
    ∀ e, Ok101 e → Ok101 (l.foldl step e) :=
  foldl_inv (P := Ok101) step l (fun e x _ he => hstep e x he)

theorem ok101_allocM (o : Nat → Bool) (b c : Nat) :
    Ok101 (allocate_clean_blockM o b c) := by
  unfold allocate_clean_blockM
  apply ok101_bind (ok101_malloc o c)
  intro c1
  apply ok101_map
  rw [foldRange]
  exact ok101_foldl _ _ (fun e x he => ok101_bind he (fun c2 => ok101_malloc o c2))
    _ (ok101_ok c1)

theorem ok101_genmatM (o : Nat → Bool) (n b c : Nat) :
    Ok101 (genmatM o n b c) := by
  unfold genmatM
  rw [foldRange]
  apply ok101_foldl
  · intro e ii he
    apply ok101_bind he
    intro p
    rw [foldRange]
    apply ok101_foldl
    · intro e jj he'
      apply ok101_bind he'
      intro q
      by_cases hne : nullEntry ii jj = true
      · rw [if_pos hne]; exact ok101_ok _
      · rw [if_neg hne]
        exact ok101_map _ (ok101_allocM o b q.2)
    · exact ok101_ok p
  · exact ok101_ok _

theorem ok101_initM (o : Nat → Bool) (n b c : Nat) :
    Ok101 (sparselu_initM o n b c) := by
  unfold sparselu_initM
  apply ok101_bind (ok101_malloc o c)
  intro c1
  apply ok101_bind
  · rw [foldRange]
    exact ok101_foldl _ _ (fun e x he => ok101_bind he (fun c2 => ok101_malloc o c2))
      _ (ok101_ok c1)
  · intro c3
    exact ok101_genmatM o n b c3

theorem ok101_dichotomy {α : Type} (e : Except Nat α) (he : Ok101 e) :
    (∃ r, e = Except.ok r) ∨ e = Except.error 101 := by
  cases e with
  | ok r => exact Or.inl ⟨r, rfl⟩
  | error m => exact Or.inr (by rw [he m rfl])

theorem overlapB_iff (l1 l2 : List (Nat × Nat)) :
    overlapB l1 l2 = true ↔ ∃ c ∈ l1, c ∈ l2 := by
  simp [overlapB, List.any_eq_true]

theorem footWrites_eq_dependInout (t : Task) : footWrites t = dependInout t := by
  cases t with
  | mk kind kk ii jj tp ba => cases kind <;> rfl

theorem footReads_sub_depend (t : Task) :
    ∀ c ∈ footReads t, c ∈ dependIn t ++ dependInout t := by
  cases t with
  | mk kind kk ii jj tp ba =>
      cases kind <;> intro c hc <;>
        simp only [footReads, dependIn, dependInout, List.mem_append,
          List.mem_cons, List.mem_singleton, List.not_mem_nil] at hc ⊢ <;> tauto

theorem hazard_conflict {t1 t2 : Task} (h : hazardB t1 t2 = true) :
    conflictB t1 t2 = true := by
  rw [hazardB, Bool.or_eq_true, overlapB_iff, overlapB_iff] at h
  rw [conflictB, Bool.or_eq_true, overlapB_iff, overlapB_iff]
  rcases h with ⟨c, hc1, hc2⟩ | ⟨c, hc1, hc2⟩
  · rw [footWrites_eq_dependInout] at hc1
    rcases List.mem_append.mp hc2 with hc2 | hc2
    · rw [footWrites_eq_dependInout] at hc2
      exact Or.inl ⟨c, hc1, List.mem_append.mpr (Or.inl hc2)⟩
    · have := footReads_sub_depend t2 c hc2
      rcases List.mem_append.mp this with hm | hm
      · exact Or.inl ⟨c, hc1, List.mem_append.mpr (Or.inr hm)⟩
      · exact Or.inl ⟨c, hc1, List.mem_append.mpr (Or.inl hm)⟩
  · rw [footWrites_eq_dependInout] at hc2
    have := footReads_sub_depend t1 c hc1
    rcases List.mem_append.mp this with hm | hm
    · exact Or.inr ⟨c, hm, hc2⟩
    · exact Or.inl ⟨c, hm, List.mem_append.mpr (Or.inl hc2)⟩

theorem stepTaskList_length (n kk : Nat) (g : Grid) :
    (TaskDep.stepTaskList n kk g).length = 1
      + ((Finset.Ico (kk+1) n).filter (fun jj => pres g kk jj = true)).card
      + ((Finset.Ico (kk+1) n).filter (fun ii => pres g ii kk = true)).card
      + (((Finset.Ico (kk+1) n) ×ˢ (Finset.Ico (kk+1) n)).filter
          (fun x => pres g x.1 kk = true ∧ pres g kk x.2 = true)).card := by
  have bridgeF := card_Ico_filter_eq (kk+1) n (fun jj => pres g kk jj)
  have bridgeB := card_Ico_filter_eq (kk+1) n (fun ii => pres g ii kk)
  have lenF := length_filterMap_if (fun jj => pres g kk jj)
    (fun jj => (⟨TaskKind.fwdT, kk, kk, jj, true, false⟩ : Task))
    (List.range' (kk+1) (n - (kk+1)))
  have lenB := length_filterMap_if (fun ii => pres g ii kk)
    (fun ii => (⟨TaskKind.bdivT, kk, ii, kk, true, false⟩ : Task))
    (List.range' (kk+1) (n - (kk+1)))
  have lenM := length_concatMap_if (fun ii => pres g ii kk)
    (fun ii => (List.range' (kk+1) (n - (kk+1))).filterMap (fun jj =>
      if pres g kk jj = true then
        some (⟨TaskKind.bmodT, kk, ii, jj, true, false⟩ : Task)
      else none))
    (((List.range' (kk+1) (n - (kk+1))).filter (fun jj => pres g kk jj)).length)
    (fun x => length_filterMap_if (fun jj => pres g kk jj)
      (fun jj => (⟨TaskKind.bmodT, kk, x, jj, true, false⟩ : Task))
      (List.range' (kk+1) (n - (kk+1))))
    (List.range' (kk+1) (n - (kk+1)))
  have pairCard : (((Finset.Ico (kk+1) n) ×ˢ (Finset.Ico (kk+1) n)).filter
        (fun x => pres g x.1 kk = true ∧ pres g kk x.2 = true)).card
      = ((Finset.Ico (kk+1) n).filter (fun ii => pres g ii kk = true)).card
        * ((Finset.Ico (kk+1) n).filter (fun jj => pres g kk jj = true)).card := by
    have hfp := Finset.filter_product (s := Finset.Ico (kk+1) n)
      (t := Finset.Ico (kk+1) n)
      (fun i => pres g i kk = true) (fun j => pres g kk j = true)
    rw [hfp, Finset.card_product]
  rw [TaskDep.stepTaskList]
  simp only [List.length_cons, List.length_append]
  rw [lenF, lenB, lenM, pairCard, bridgeF, bridgeB]
  omega

end SparseLU

namespace SparseLU

/-- C1: for every initial block matrix satisfying the data-model invariant
(all diagonal tiles present), the task-scheduled `sparselu_par_call` --
executed task-at-submission-point, the hazard-respecting sequential
elaboration of its depend graph -- succeeds and produces exactly the grid
the sequential reference `sparselu_seq_call` produces on an identical
copy: identical presence patterns and identical tile values, hence a
squared-error sum of `0`, strictly below `1e-4`; in particular this holds
for every generated matrix `genmat n b`, including `n = 16`, `b = 8`. -/
theorem sparselu_par_eq_seq :
    (∀ b n (g : Grid), diagPresentB g n = true →
      ∃ st, TaskDep.sparselu_par_call b n g = some st ∧
        st.g = sparselu_seq_call b n g ∧
        rmsNum b n st.g (sparselu_seq_call b n g) = 0 ∧
        rmsNum b n st.g (sparselu_seq_call b n g) < 1 / 10000) ∧
    (∀ n b, ∃ st, TaskDep.sparselu_par_call b n (genmat n b) = some st ∧
      st.g = sparselu_seq_call b n (genmat n b)) := by
  constructor
  · intro b n g hd
    obtain ⟨st, h1, h2⟩ := par_run_sim b n g ((diagPresentB_iff g n).mp hd)
    refine ⟨st, h1, h2, ?_, ?_⟩
    · rw [h2]; exact rmsNum_self b n _
    · rw [h2, rmsNum_self b n _]; norm_num
  · intro n b
    obtain ⟨st, h1, h2⟩ := par_run_sim b n (genmat n b)
      ((diagPresentB_iff _ n).mp (diagPresentB_genmat n b))
    exact ⟨st, h1, h2⟩

/-- Witness for C1 at a concrete input. -/
theorem sparselu_par_eq_seq_witness :
    diagPresentB gOne 1 = true ∧
    (∃ st, TaskDep.sparselu_par_call 1 1 gOne = some st ∧
      st.g = sparselu_seq_call 1 1 gOne ∧
      rmsNum 1 1 st.g (sparselu_seq_call 1 1 gOne) = 0 ∧
      rmsNum 1 1 st.g (sparselu_seq_call 1 1 gOne) < 1 / 10000) :=
  ⟨by decide, sparselu_par_eq_seq.1 1 1 gOne (by decide)⟩

/-- C2: at each outer step `kk` the factorization submits exactly
`1 + |{jj > kk : [kk][jj] present}| + |{ii > kk : [ii][kk] present}|
+ |{(ii, jj) : ii, jj > kk, [ii][kk] and [kk][jj] both present}|` tasks,
presence being evaluated on the grid at the start of the step's
submission pass. -/
theorem par_step_task_count (b n kk : Nat) (s s' : St)
    (h : TaskDep.parStep b n kk s = some s') :
    s'.tasks.length = s.tasks.length +
      (1 + ((Finset.Ico (kk+1) n).filter (fun jj => pres s.g kk jj = true)).card
         + ((Finset.Ico (kk+1) n).filter (fun ii => pres s.g ii kk = true)).card
         + (((Finset.Ico (kk+1) n) ×ˢ (Finset.Ico (kk+1) n)).filter
             (fun x => pres s.g x.1 kk = true ∧ pres s.g kk x.2 = true)).card) := by
  cases hd : s.g kk kk with
  | none => rw [TaskDep.parStep, hd] at h; cases h
  | some d =>
      have hp : pres s.g kk kk = true := by simp [pres, hd]
      obtain ⟨s'', e1, _, e3, _⟩ := TaskDep.parStep_sim b n kk s hp
      rw [h] at e1
      injection e1 with e1
      rw [e1, e3, List.length_append, stepTaskList_length]

/-- Witness for C2 at a concrete input. -/
theorem par_step_task_count_witness :
    (TaskDep.parStep 1 2 0 ⟨gTwo, [], []⟩
      = some ((TaskDep.parStep 1 2 0 ⟨gTwo, [], []⟩).getD st0)) ∧
    ((TaskDep.parStep 1 2 0 ⟨gTwo, [], []⟩).getD st0).tasks.length
      = (⟨gTwo, [], []⟩ : St).tasks.length +
        (1 + ((Finset.Ico 1 2).filter (fun jj => pres gTwo 0 jj = true)).card
           + ((Finset.Ico 1 2).filter (fun ii => pres gTwo ii 0 = true)).card
           + (((Finset.Ico 1 2) ×ˢ (Finset.Ico 1 2)).filter
               (fun x => pres gTwo x.1 0 = true ∧ pres gTwo 0 x.2 = true)).card) :=
  ⟨by rfl, par_step_task_count 1 2 0 ⟨gTwo, [], []⟩ _ (by rfl)⟩

/-- C3: for any two tasks submitted by the factorization whose semantic
footprints share a tile coordinate with at least one write, and any valid
schedule -- `ValidSched` being the OpenMP readiness contract, modelled
from the spec, under any number of workers -- the earlier-submitted task
finishes strictly before the later one starts.  The load-bearing fact
proved about the code is that the pragma's depend sets cover every such
hazard (`hazard_conflict`). -/
theorem hazard_pairs_fully_ordered (b n : Nat) (g : Grid) (st : St)
    (h : TaskDep.sparselu_par_call b n g = some st)
    (sch : List (Nat × Nat)) (hv : ValidSched st.tasks sch = true)
    (i' i : Nat) (hlt : i' < i) (hi : i < st.tasks.length)
    (hh : hazardB (st.tasks.getD i' task0) (st.tasks.getD i task0) = true) :
    (sch.getD i' (0, 0)).2 < (sch.getD i (0, 0)).1 := by
  rw [ValidSched, Bool.and_eq_true, List.all_eq_true] at hv
  obtain ⟨_, hv⟩ := hv
  have h1 := hv i (by simpa [List.mem_range] using hi)
  rw [Bool.and_eq_true, List.all_eq_true] at h1
  obtain ⟨_, h2⟩ := h1
  have h3 := h2 i' (by simpa [List.mem_range] using hlt)
  rw [Bool.or_eq_true] at h3
  rcases h3 with h3 | h3
  · rw [Bool.not_eq_true'] at h3
    rw [hazard_conflict hh] at h3
    cases h3
  · exact of_decide_eq_true h3

/-- Witness for C3 at a concrete input: the five tasks of the `2 × 2`
all-present run, scheduled strictly in submission order. -/
theorem hazard_pairs_fully_ordered_witness :
    (TaskDep.sparselu_par_call 1 2 gTwo
      = some ((TaskDep.sparselu_par_call 1 2 gTwo).getD st0)) ∧
    ValidSched ((TaskDep.sparselu_par_call 1 2 gTwo).getD st0).tasks
      [(0, 0), (1, 1), (2, 2), (3, 3), (4, 4)] = true ∧
    0 < 1 ∧
    1 < ((TaskDep.sparselu_par_call 1 2 gTwo).getD st0).tasks.length ∧
    hazardB (((TaskDep.sparselu_par_call 1 2 gTwo).getD st0).tasks.getD 0 task0)
      (((TaskDep.sparselu_par_call 1 2 gTwo).getD st0).tasks.getD 1 task0) = true ∧
    (([(0, 0), (1, 1), (2, 2), (3, 3), (4, 4)] : List (Nat × Nat)).getD 0 (0, 0)).2
      < (([(0, 0), (1, 1), (2, 2), (3, 3), (4, 4)] : List (Nat × Nat)).getD 1 (0, 0)).1 :=
  ⟨by rfl, by decide, by decide, by decide, by decide,
    hazard_pairs_fully_ordered 1 2 gTwo _ (by rfl) _ (by decide) 0 1 (by decide)
      (by decide) (by decide)⟩

/-- C4: the values divergence.  The code's `genmat` (task construct,
`init_val` firstprivate) gives slot `(0, 1)` the *same* first value as
slot `(0, 0)` -- every present tile restarts the recurrence at the seed
1325 -- whereas the recurrence threaded in row-major order as the claim
describes (`genmatSpec`) gives slot `(0, 1)` the second draw, a different
value.  Evaluated at `matrix_size = 2`, `submatrix_size = 1`. -/
theorem genmat_task_rng_restarts :
    tileAt (genmat 2 1) 0 0 0 0 = some (-(20911 / 16384 : ℚ)) ∧
    tileAt (genmat 2 1) 0 1 0 0 = some (-(20911 / 16384 : ℚ)) ∧
    tileAt (genmatSpec 2 1) 0 0 0 0 = some (-(20911 / 16384 : ℚ)) ∧
    tileAt (genmatSpec 2 1) 0 1 0 0 = some (-(7483 / 16384 : ℚ)) ∧
    (-(20911 / 16384) : ℚ) ≠ (-(7483 / 16384) : ℚ) := by
  refine ⟨?_, ?_, ?_, ?_, by norm_num⟩ <;>
    norm_num [tileAt, genmat, genmatSpec, nullEntry, fillTile, foldRange, List.range',
      rngStep, rngVal, updT, updG, allocate_clean_block]

/-- C5: `lu0` performs exactly the in-place unpivoted LU elimination the
specification describes, in the same iteration order (`lu0_spec` is the
specification text transcribed). -/
theorem lu0_matches_spec (b : Nat) (d : Tile) : lu0 b d = lu0_spec b d :=
  lu0_eq_lu0_spec b d

/-- C6 counterexample: in the plain-task version (sparselu-task.c), the
run on the grid with `[0][0]`, `[0][1]`, `[1][0]` present and `[1][1]`
absent submits a `bmod` task whose target slot is absent at task creation
and whose body performs the allocation -- the fill-in is not done by the
issuing pass before submission. -/
theorem bmod_fillin_inside_task_body :
    (TaskOnly.sparselu_par_call 1 2 gFill).isSome = true ∧
    (((TaskOnly.sparselu_par_call 1 2 gFill).getD st0).tasks.any
      (fun t => decide (t.kind = TaskKind.bmodT) && !t.targetPresent && t.bodyAlloc))
      = true := by
  constructor <;> decide

/-- C6 amended: in the task-dep version (sparselu-task-dep.c), the claim
holds -- every submitted task (in particular every `bmod` task) has all
its written slots present at the moment it is created, the fill-in
allocation having been performed synchronously by the issuing pass before
submission, and no task body allocates. -/
theorem taskdep_fillin_before_submission (b n : Nat) (g : Grid) (st : St)
    (h : TaskDep.sparselu_par_call b n g = some st) :
    ∀ t ∈ st.tasks, t.targetPresent = true ∧ t.bodyAlloc = false :=
  (TaskDep.par_call_good h).1

/-- Witness for the amended C6 at a concrete input on which fill-in
actually occurs. -/
theorem taskdep_fillin_before_submission_witness :
    (TaskDep.sparselu_par_call 1 2 gFill
      = some ((TaskDep.sparselu_par_call 1 2 gFill).getD st0)) ∧
    (∀ t ∈ ((TaskDep.sparselu_par_call 1 2 gFill).getD st0).tasks,
      t.targetPresent = true ∧ t.bodyAlloc = false) :=
  ⟨by rfl, taskdep_fillin_before_submission 1 2 gFill _ (by rfl)⟩

/-- C7: during a factorization run, `allocate_clean_block` is invoked at
most once per grid slot (the allocation event list has no duplicates),
only on slots that were absent in the input, every initially present slot
stays present to the end and is never an allocation target, and every
allocated slot is present from then on -- no slot is ever re-allocated or
set back to absent. -/
theorem fillin_alloc_at_most_once (b n : Nat) (g : Grid) (st : St)
    (h : TaskDep.sparselu_par_call b n g = some st) :
    st.allocs.Nodup ∧
    (∀ i j, pres g i j = true → pres st.g i j = true ∧ (i, j) ∉ st.allocs) ∧
    (∀ p ∈ st.allocs, pres g p.1 p.2 = false ∧ pres st.g p.1 p.2 = true) := by
  obtain ⟨_, h2, h3, h4⟩ := TaskDep.par_call_good h
  exact ⟨h2, h3, fun p hp => ⟨(h4 p hp).2, (h4 p hp).1⟩⟩

/-- Witness for C7 at a concrete input with one fill-in event. -/
theorem fillin_alloc_at_most_once_witness :
    (TaskDep.sparselu_par_call 1 2 gFill
      = some ((TaskDep.sparselu_par_call 1 2 gFill).getD st0)) ∧
    (((TaskDep.sparselu_par_call 1 2 gFill).getD st0).allocs.Nodup ∧
    (∀ i j, pres gFill i j = true →
      pres ((TaskDep.sparselu_par_call 1 2 gFill).getD st0).g i j = true ∧
        (i, j) ∉ ((TaskDep.sparselu_par_call 1 2 gFill).getD st0).allocs) ∧
    (∀ p ∈ ((TaskDep.sparselu_par_call 1 2 gFill).getD st0).allocs,
      pres gFill p.1 p.2 = false ∧
        pres ((TaskDep.sparselu_par_call 1 2 gFill).getD st0).g p.1 p.2 = true)) :=
  ⟨by rfl, fillin_alloc_at_most_once 1 2 gFill _ (by rfl)⟩

/-- C8: with `matrix_size = 1`, the task-dep factorization performs
exactly one operation -- `lu0` on the single diagonal tile: the resulting
grid is the input with `lu0` applied to slot `(0, 0)`, the task trace is
the single `lu0` task, and no fill-in allocation occurs. -/
theorem par_call_single_tile (b : Nat) (g : Grid) (d : Tile) (h : g 0 0 = some d) :
    TaskDep.sparselu_par_call b 1 g
      = some ⟨updG g 0 0 (some (lu0 b d)),
          [⟨TaskKind.lu0T, 0, 0, 0, true, false⟩], []⟩ := by
  have hr : List.range' 0 1 = [0] := rfl
  simp only [TaskDep.sparselu_par_call, foldRange, Nat.sub_zero, hr, List.foldl_cons,
    List.foldl_nil, Option.some_bind]
  rw [TaskDep.parStep]
  dsimp only
  rw [h]
  simp only [Option.isSome_some]
  rw [TaskDep.fwdPass, foldRange_nil _ _ _ _ (le_refl 1), Option.some_bind]
  rw [TaskDep.bdivPass, foldRange_nil _ _ _ _ (le_refl 1), Option.some_bind]
  rw [TaskDep.bmodPass, foldRange_nil _ _ _ _ (le_refl 1)]
  simp

/-- Witness for C8 at a concrete input. -/
theorem par_call_single_tile_witness :
    gOne 0 0 = some (fun _ _ => (1 : ℚ)) ∧
    TaskDep.sparselu_par_call 1 1 gOne
      = some ⟨updG gOne 0 0 (some (lu0 1 (fun _ _ => (1 : ℚ)))),
          [⟨TaskKind.lu0T, 0, 0, 0, true, false⟩], []⟩ :=
  ⟨by rfl, par_call_single_tile 1 gOne _ (by rfl)⟩

/-- C9: every allocation of the core (the grid array, its rows, tile row
arrays and tile slots, drawn from an arbitrary `malloc` success oracle)
either fully succeeds or terminates with exactly the exit code 101; no
allocation-failure path returns control with a partial result. -/
theorem alloc_failure_exits_101 :
    (∀ (o : Nat → Bool) (b c : Nat),
      (∃ r, allocate_clean_blockM o b c = Except.ok r) ∨
        allocate_clean_blockM o b c = Except.error 101) ∧
    (∀ (o : Nat → Bool) (n b c : Nat),
      (∃ r, sparselu_initM o n b c = Except.ok r) ∨
        sparselu_initM o n b c = Except.error 101) :=
  ⟨fun o b c => ok101_dichotomy _ (ok101_allocM o b c),
   fun o n b c => ok101_dichotomy _ (ok101_initM o n b c)⟩

/-- C10: under the precondition that every diagonal tile is present --
which the generator guarantees (second conjunct) -- the task-dep
factorization, which dereferences `BENCH[kk][kk]` without a presence
check, never reaches the absent-tile branch of the embedding: the run
returns `some`. -/
theorem par_call_total_of_diag_present :
    (∀ b n (g : Grid), diagPresentB g n = true →
      (TaskDep.sparselu_par_call b n g).isSome = true) ∧
    (∀ n b, diagPresentB (genmat n b) n = true) := by
  constructor
  · intro b n g hd
    obtain ⟨st, h1, _⟩ := par_run_sim b n g ((diagPresentB_iff g n).mp hd)
    rw [h1]; rfl
  · exact diagPresentB_genmat

/-- Witness for C10 at a concrete input. -/
theorem par_call_total_of_diag_present_witness :
    diagPresentB gOne 1 = true ∧
    (TaskDep.sparselu_par_call 1 1 gOne).isSome = true :=
  ⟨by decide, par_call_total_of_diag_present.1 1 1 gOne (by decide)⟩

end SparseLU
